import Mathlib

/-!
Shallow embedding of the rate-limiting subsystem
(`backend/app/ratelimit/{storage,strategies,limiter,middleware}.py`).

Time is modelled as `ℚ` (Python floats), integers as `ℤ`.  Python's
`int(x)` truncation and `x % 1.0` are modelled by `pyInt` and `pyMod1`.
The in-memory TTL store `InMemoryStorage` is modelled functionally by
`MemStore`; every storage mutation returns the new store.
-/

namespace RateLimit

/-- Python `int(x)` on a float: truncation toward zero. -/
def pyInt (q : ℚ) : ℤ := if 0 ≤ q then ⌊q⌋ else ⌈q⌉

/-- Python `x % 1.0` on a float: the result carries the divisor's sign,
so this is the fractional part `x - ⌊x⌋` for every `x`. -/
def pyMod1 (q : ℚ) : ℚ := q - ⌊q⌋

/-- `InMemoryStorage` (storage.py): `_data` and `_expiry` maps plus the
lazy-cleanup bookkeeping `_last_cleanup` / `_cleanup_interval`. -/
structure MemStore (α : Type) where
  data : String → Option α
  expiry : String → Option ℚ
  lastCleanup : ℚ
  cleanupInterval : ℚ

namespace MemStore

variable {α : Type}

/-- A fresh `InMemoryStorage(cleanup_interval)` created at time `t`:
empty maps, `_last_cleanup = time.time()`. -/
def init (cleanupInterval : ℚ) (t : ℚ) : MemStore α :=
  { data := fun _ => none, expiry := fun _ => none,
    lastCleanup := t, cleanupInterval := cleanupInterval }

/-- The sweep body of `_maybe_cleanup`: delete every entry whose expiry
lies strictly in the past, and stamp `_last_cleanup`. -/
def cleanupNow (s : MemStore α) (t : ℚ) : MemStore α :=
  { data := fun k => match s.expiry k with
      | some e => if e < t then none else s.data k
      | none => s.data k
    expiry := fun k => match s.expiry k with
      | some e => if e < t then none else some e
      | none => none
    lastCleanup := t
    cleanupInterval := s.cleanupInterval }

/-- `_maybe_cleanup`: run the sweep only when the cleanup interval has
elapsed since the last sweep. -/
def maybeCleanup (s : MemStore α) (t : ℚ) : MemStore α :=
  if t - s.lastCleanup < s.cleanupInterval then s else s.cleanupNow t

/-- `InMemoryStorage.get`: lazy cleanup, then return the value unless the
key is absent or expired; an expired key is deleted on the spot. -/
def get (s : MemStore α) (key : String) (t : ℚ) : Option α × MemStore α :=
  let s1 := s.maybeCleanup t
  match s1.data key with
  | none => (none, s1)
  | some v =>
    match s1.expiry key with
    | some e =>
      if e < t then
        (none,
         { s1 with data := fun k => if k = key then none else s1.data k,
                   expiry := fun k => if k = key then none else s1.expiry k })
      else (some v, s1)
    | none => (some v, s1)

/-- `InMemoryStorage.set`: store the value; a provided TTL sets the
expiry to `now + ttl`, no TTL removes any existing expiry. -/
def set (s : MemStore α) (key : String) (v : α) (ttl : Option ℚ) (t : ℚ) :
    MemStore α :=
  { s with data := fun k => if k = key then some v else s.data k,
           expiry := fun k => if k = key then ttl.map (fun d => t + d)
                              else s.expiry k }

/-- `InMemoryStorage.delete`: drop the key from both maps. -/
def delete (s : MemStore α) (key : String) : MemStore α :=
  { s with data := fun k => if k = key then none else s.data k,
           expiry := fun k => if k = key then none else s.expiry k }

end MemStore

/-- The decision metadata dictionary built by every strategy. -/
structure Metadata where
  remaining : ℤ
  limit : ℤ
  reset_at : ℤ
  retry_after : ℤ
deriving DecidableEq, Repr

/-- Token-bucket stored state: `{"tokens": float, "last_refill": float}`. -/
structure BucketData where
  tokens : ℚ
  last_refill : ℚ
deriving DecidableEq, Repr

/-- Fixed-window stored state: `{"count": int, "window_id": int}`. -/
structure WindowData where
  count : ℤ
  window_id : ℤ
deriving DecidableEq, Repr

namespace TokenBucketStrategy

/-- `TokenBucketStrategy.is_allowed` (strategies.py lines 79-131),
returning `(allowed, metadata)` together with the updated storage. -/
def is_allowed (storage : MemStore BucketData) (identifier : String)
    (limit window_seconds : ℤ) (current_time : ℚ) :
    Bool × Metadata × MemStore BucketData :=
  let got := storage.get identifier current_time
  let bucket_data := got.1.getD
    { tokens := (limit : ℚ), last_refill := current_time }
  let time_elapsed := current_time - bucket_data.last_refill
  let refill_rate : ℚ := (limit : ℚ) / (window_seconds : ℚ)
  let tokens_to_add := time_elapsed * refill_rate
  let refilled := min (bucket_data.tokens + tokens_to_add) ((limit : ℚ))
  let allowed : Bool := decide (1 ≤ refilled)
  let new_tokens := if 1 ≤ refilled then refilled - 1 else refilled
  let storage1 := got.2.set identifier
    { tokens := new_tokens, last_refill := current_time }
    (some ((window_seconds * 2 : ℤ) : ℚ)) current_time
  let remaining := pyInt new_tokens
  let reset_at : ℚ :=
    if new_tokens < (limit : ℚ) then
      current_time + (1 - pyMod1 new_tokens) / refill_rate
    else current_time
  (allowed,
   { remaining := remaining, limit := limit, reset_at := pyInt reset_at,
     retry_after := if allowed then 0 else pyInt (reset_at - current_time) },
   storage1)

/-- `TokenBucketStrategy.reset`: delete the identifier's key. -/
def reset (storage : MemStore BucketData) (identifier : String) :
    MemStore BucketData :=
  storage.delete identifier

/-- The strategy over a list of call times, threading the storage. -/
def run (storage : MemStore BucketData) (identifier : String)
    (limit window_seconds : ℤ) : List ℚ → List (Bool × Metadata) × MemStore BucketData
  | [] => ([], storage)
  | t :: ts =>
    let r := is_allowed storage identifier limit window_seconds t
    let rest := run r.2.2 identifier limit window_seconds ts
    ((r.1, r.2.1) :: rest.1, rest.2)

end TokenBucketStrategy

namespace SlidingWindowStrategy

/-- `SlidingWindowStrategy.is_allowed` (strategies.py lines 161-205).
The stored log is pruned to timestamps strictly inside the trailing
window; the pruned (and, when allowed, extended) log is written back
only on admission, so a denial leaves the stored value untouched. -/
def is_allowed (storage : MemStore (List ℚ)) (identifier : String)
    (limit window_seconds : ℤ) (current_time : ℚ) :
    Bool × Metadata × MemStore (List ℚ) :=
  let window_start := current_time - (window_seconds : ℚ)
  let got := storage.get identifier current_time
  let request_log := (got.1.getD []).filter (fun ts => decide (window_start < ts))
  let allowed : Bool := decide ((request_log.length : ℤ) < limit)
  let request_log2 := if allowed then request_log ++ [current_time] else request_log
  let storage1 :=
    if allowed then
      got.2.set identifier request_log2 (some ((window_seconds * 2 : ℤ) : ℚ)) current_time
    else got.2
  let remaining := max 0 (limit - (request_log2.length : ℤ))
  let reset_at : ℚ :=
    match request_log2.min? with
    | some oldest_request => oldest_request + (window_seconds : ℚ)
    | none => current_time + (window_seconds : ℚ)
  let retry_after : ℤ :=
    if allowed then 0 else max 0 (pyInt (reset_at - current_time))
  (allowed,
   { remaining := remaining, limit := limit, reset_at := pyInt reset_at,
     retry_after := retry_after },
   storage1)

/-- `SlidingWindowStrategy.reset`: delete the identifier's key. -/
def reset (storage : MemStore (List ℚ)) (identifier : String) :
    MemStore (List ℚ) :=
  storage.delete identifier

/-- The strategy over a list of call times, threading the storage. -/
def run (storage : MemStore (List ℚ)) (identifier : String)
    (limit window_seconds : ℤ) : List ℚ → List (Bool × Metadata) × MemStore (List ℚ)
  | [] => ([], storage)
  | t :: ts =>
    let r := is_allowed storage identifier limit window_seconds t
    let rest := run r.2.2 identifier limit window_seconds ts
    ((r.1, r.2.1) :: rest.1, rest.2)

end SlidingWindowStrategy

namespace FixedWindowStrategy

/-- `FixedWindowStrategy.is_allowed` (strategies.py lines 235-278).
State lives under the composite key `identifier:window_id`. -/
def is_allowed (storage : MemStore WindowData) (identifier : String)
    (limit window_seconds : ℤ) (current_time : ℚ) :
    Bool × Metadata × MemStore WindowData :=
  let window_id : ℤ := ⌊current_time / (window_seconds : ℚ)⌋
  let key := identifier ++ ":" ++ toString window_id
  let got := storage.get key current_time
  let wd0 := got.1.getD { count := 0, window_id := window_id }
  let window_data :=
    if wd0.window_id ≠ window_id then
      ({ count := 0, window_id := window_id } : WindowData)
    else wd0
  let allowed : Bool := decide (window_data.count < limit)
  let window_data2 :=
    if allowed then { window_data with count := window_data.count + 1 }
    else window_data
  let storage1 :=
    if allowed then
      got.2.set key window_data2 (some ((window_seconds * 2 : ℤ) : ℚ)) current_time
    else got.2
  let remaining := max 0 (limit - window_data2.count)
  let reset_at : ℚ := (((window_id + 1) * window_seconds : ℤ) : ℚ)
  (allowed,
   { remaining := remaining, limit := limit, reset_at := pyInt reset_at,
     retry_after := if allowed then 0 else pyInt (reset_at - current_time) },
   storage1)

/-- `FixedWindowStrategy.reset` (strategies.py lines 280-284): deletes
the bare identifier key, although state is stored under
`identifier:window_id`. -/
def reset (storage : MemStore WindowData) (identifier : String) :
    MemStore WindowData :=
  storage.delete identifier

/-- The strategy over a list of call times, threading the storage. -/
def run (storage : MemStore WindowData) (identifier : String)
    (limit window_seconds : ℤ) : List ℚ → List (Bool × Metadata) × MemStore WindowData
  | [] => ([], storage)
  | t :: ts =>
    let r := is_allowed storage identifier limit window_seconds t
    let rest := run r.2.2 identifier limit window_seconds ts
    ((r.1, r.2.1) :: rest.1, rest.2)

end FixedWindowStrategy

/-- The only exception Python arithmetic can raise on the strategies'
paths: `ZeroDivisionError`. -/
inductive PyError where
  | zeroDivision
deriving DecidableEq

/-- `TokenBucketStrategy.is_allowed` with Python's exception behavior
made explicit.  Two statements on the path divide:
`refill_rate = limit / window_seconds` (line 97) raises
`ZeroDivisionError` exactly when `window_seconds == 0`, and
`seconds_until_next_token = (1.0 - (new_tokens % 1.0)) / refill_rate`
(line 119), which runs only inside the `new_tokens < limit` branch of
line 118, raises exactly when `refill_rate == 0.0`.  The guard recomputes
`new_tokens` and `refill_rate` by the same lines 94-111; the storage
write of line 113 happens before line 119 in Python, but a raise
discards the returned tuple, so no result is modeled for it. -/
def TokenBucketStrategy.is_allowedE (storage : MemStore BucketData)
    (identifier : String) (limit window_seconds : ℤ) (current_time : ℚ) :
    Except PyError (Bool × Metadata × MemStore BucketData) :=
  if window_seconds = 0 then .error .zeroDivision
  else
    let got := storage.get identifier current_time
    let bucket_data := got.1.getD
      { tokens := (limit : ℚ), last_refill := current_time }
    let time_elapsed := current_time - bucket_data.last_refill
    let refill_rate : ℚ := (limit : ℚ) / (window_seconds : ℚ)
    let tokens_to_add := time_elapsed * refill_rate
    let refilled := min (bucket_data.tokens + tokens_to_add) ((limit : ℚ))
    let new_tokens := if 1 ≤ refilled then refilled - 1 else refilled
    if new_tokens < (limit : ℚ) ∧ refill_rate = 0 then .error .zeroDivision
    else .ok (TokenBucketStrategy.is_allowed storage identifier limit window_seconds current_time)

/-- `FixedWindowStrategy.is_allowed` with Python's exception behavior
made explicit: `current_time // window_seconds` (line 246) raises
`ZeroDivisionError` exactly when `window_seconds == 0`. -/
def FixedWindowStrategy.is_allowedE (storage : MemStore WindowData)
    (identifier : String) (limit window_seconds : ℤ) (current_time : ℚ) :
    Except PyError (Bool × Metadata × MemStore WindowData) :=
  if window_seconds = 0 then .error .zeroDivision
  else .ok (FixedWindowStrategy.is_allowed storage identifier limit window_seconds current_time)

/-- The storage-plus-strategy pair a `RateLimiter` owns: exactly one of
the three concrete strategies, bound to its own storage instance. -/
inductive StratState where
  | token_bucket (s : MemStore BucketData)
  | sliding_window (s : MemStore (List ℚ))
  | fixed_window (s : MemStore WindowData)

/-- Dispatch `strategy.is_allowed` on whichever strategy is bound. -/
def StratState.is_allowed (st : StratState) (identifier : String)
    (limit window_seconds : ℤ) (current_time : ℚ) :
    Bool × Metadata × StratState :=
  match st with
  | .token_bucket s =>
    let r := TokenBucketStrategy.is_allowed s identifier limit window_seconds current_time
    (r.1, r.2.1, .token_bucket r.2.2)
  | .sliding_window s =>
    let r := SlidingWindowStrategy.is_allowed s identifier limit window_seconds current_time
    (r.1, r.2.1, .sliding_window r.2.2)
  | .fixed_window s =>
    let r := FixedWindowStrategy.is_allowed s identifier limit window_seconds current_time
    (r.1, r.2.1, .fixed_window r.2.2)

/-- `RateLimiter` (limiter.py): one strategy bound to one storage plus
the default quota. -/
structure RateLimiter where
  strat : StratState
  default_limit : ℤ
  default_window : ℤ

namespace RateLimiter

/-- `RateLimiter.check` (limiter.py lines 58-80): fill in defaults for
omitted overrides and delegate to the bound strategy. -/
def check (rl : RateLimiter) (identifier : String)
    (limit window : Option ℤ) (current_time : ℚ) :
    Bool × Metadata × RateLimiter :=
  let l := limit.getD rl.default_limit
  let w := window.getD rl.default_window
  let r := rl.strat.is_allowed identifier l w current_time
  (r.1, r.2.1, { rl with strat := r.2.2 })

/-- `RateLimiter.reset` (limiter.py lines 82-91). -/
def reset (rl : RateLimiter) (identifier : String) : RateLimiter :=
  match rl.strat with
  | .token_bucket s => { rl with strat := .token_bucket (TokenBucketStrategy.reset s identifier) }
  | .sliding_window s => { rl with strat := .sliding_window (SlidingWindowStrategy.reset s identifier) }
  | .fixed_window s => { rl with strat := .fixed_window (FixedWindowStrategy.reset s identifier) }

/-- `RateLimiter.get_limits` (limiter.py lines 93-119): documented as
returning the status "without consuming a request", but implemented as a
plain call to `strategy.is_allowed`, discarding only the boolean. -/
def get_limits (rl : RateLimiter) (identifier : String)
    (limit window : Option ℤ) (current_time : ℚ) :
    Metadata × RateLimiter :=
  let l := limit.getD rl.default_limit
  let w := window.getD rl.default_window
  let r := rl.strat.is_allowed identifier l w current_time
  (r.2.1, { rl with strat := r.2.2 })

end RateLimiter

/-- The observable parts of a middleware response: HTTP status, the
JSON body fields the denial response carries, and the header list. -/
structure HttpResponse where
  status : ℤ
  body_error : Option String
  body_message : Option String
  body_retry_after : Option ℤ
  headers : List (String × String)
deriving DecidableEq, Repr

/-- Whether a response carries a header with the given name. -/
def HttpResponse.hasHeader (r : HttpResponse) (name : String) : Bool :=
  r.headers.any (fun p => p.1 == name)

namespace RateLimitMiddleware

/-- `_add_rate_limit_headers` (middleware.py lines 158-173). -/
def add_rate_limit_headers (r : HttpResponse) (metadata : Metadata) : HttpResponse :=
  { r with headers := r.headers ++
      [("X-RateLimit-Limit", toString metadata.limit),
       ("X-RateLimit-Remaining", toString metadata.remaining),
       ("X-RateLimit-Reset", toString metadata.reset_at)] }

/-- `_rate_limit_response` (middleware.py lines 129-156): the 429 body,
the three `X-RateLimit-*` headers, and `Retry-After` only when
`retry_after > 0`. -/
def rate_limit_response (metadata : Metadata) : HttpResponse :=
  let response : HttpResponse :=
    { status := 429,
      body_error := some "rate_limit_exceeded",
      body_message := some "Too many requests. Please try again later.",
      body_retry_after := some metadata.retry_after,
      headers := [] }
  let response := add_rate_limit_headers response metadata
  if 0 < metadata.retry_after then
    { response with headers := response.headers ++ [("Retry-After", toString metadata.retry_after)] }
  else response

/-- `RateLimitMiddleware.dispatch` (middleware.py lines 63-102).
`resolve` is the outcome of calling the identifier resolver on the
request (`Except` models a raised exception); `downstream` is the
response `call_next` would produce.  The returned boolean records
whether the downstream handler was invoked. -/
def dispatch (skip_paths : List String) (add_headers : Bool)
    (rl : RateLimiter) (path : String) (resolve : Except String String)
    (downstream : HttpResponse) (current_time : ℚ) :
    Bool × HttpResponse × RateLimiter :=
  if path ∈ skip_paths then (true, downstream, rl)
  else
    match resolve with
    | .error _ => (true, downstream, rl)
    | .ok identifier =>
      let r := rl.check identifier none none current_time
      if r.1 then
        (true,
         if add_headers then add_rate_limit_headers downstream r.2.1 else downstream,
         r.2.2)
      else (false, rate_limit_response r.2.1, r.2.2)

end RateLimitMiddleware

/-! ### Basic facts about the Python arithmetic helpers -/

theorem pyInt_eq_floor {q : ℚ} (h : 0 ≤ q) : pyInt q = ⌊q⌋ := if_pos h

theorem pyInt_intCast (n : ℤ) : pyInt (n : ℚ) = n := by
  unfold pyInt
  split <;> simp

theorem pyInt_nonneg {q : ℚ} (h : 0 ≤ q) : 0 ≤ pyInt q := by
  rw [pyInt_eq_floor h]
  exact Int.floor_nonneg.2 h

theorem pyInt_le_intCast {q : ℚ} {n : ℤ} (h0 : 0 ≤ q) (h : q ≤ (n : ℚ)) :
    pyInt q ≤ n := by
  rw [pyInt_eq_floor h0]
  calc ⌊q⌋ ≤ ⌊(n : ℚ)⌋ := Int.floor_le_floor h
  _ = n := Int.floor_intCast n

theorem pyMod1_nonneg (q : ℚ) : 0 ≤ pyMod1 q :=
  sub_nonneg.2 (Int.floor_le q)

theorem pyMod1_lt_one (q : ℚ) : pyMod1 q < 1 :=
  sub_lt_iff_lt_add.2 (by rw [add_comm] ; exact Int.lt_floor_add_one q)

/-! ### The observable content of the store

`MemStore.read` is the value an entry presents at a given time: absent
keys and expired keys read as `none`.  `get` returns exactly `read`, and
every mutation `get` performs preserves `read` at later times. -/

namespace MemStore

variable {α : Type}

/-- What a key reads as at time `t`: its value unless absent or expired. -/
def read (s : MemStore α) (key : String) (t : ℚ) : Option α :=
  match s.data key with
  | none => none
  | some v =>
    match s.expiry key with
    | some e => if e < t then none else some v
    | none => some v

theorem read_init (ci t0 : ℚ) (key : String) (t : ℚ) :
    (init (α := α) ci t0).read key t = none := rfl

/-- The eager sweep never changes what any key reads as at any time at or
after the sweep. -/
theorem read_cleanupNow (s : MemStore α) {t t' : ℚ} (ht : t ≤ t') (k : String) :
    (s.cleanupNow t).read k t' = s.read k t' := by
  unfold cleanupNow read
  cases he : s.expiry k with
  | none => cases hd : s.data k <;> simp [he, hd]
  | some e =>
    by_cases het : e < t
    · cases hd : s.data k <;> simp [he, hd, het, lt_of_lt_of_le het ht]
    · cases hd : s.data k <;> simp [he, hd, het]

theorem read_maybeCleanup (s : MemStore α) {t t' : ℚ} (ht : t ≤ t') (k : String) :
    (s.maybeCleanup t).read k t' = s.read k t' := by
  unfold maybeCleanup
  split
  · rfl
  · exact read_cleanupNow s ht k

/-- The value `get` returns is the `read` of the key. -/
theorem get_fst (s : MemStore α) (key : String) (t : ℚ) :
    (s.get key t).1 = s.read key t := by
  rw [← read_maybeCleanup s (le_refl t) key]
  unfold get read
  cases hd : (s.maybeCleanup t).data key with
  | none => simp [hd]
  | some v =>
    cases he : (s.maybeCleanup t).expiry key with
    | none => simp [hd, he]
    | some e => by_cases het : e < t <;> simp [hd, he, het]

/-- The lazy deletions `get` performs never change what any key reads as
at any time at or after the `get`. -/
theorem get_snd_read (s : MemStore α) (key : String) {t t' : ℚ} (ht : t ≤ t')
    (k : String) : ((s.get key t).2).read k t' = s.read k t' := by
  rw [← read_maybeCleanup s ht k]
  unfold get
  cases hd : (s.maybeCleanup t).data key with
  | none => simp [hd]
  | some v =>
    cases he : (s.maybeCleanup t).expiry key with
    | none => simp [hd, he]
    | some e =>
      by_cases het : e < t
      · simp only [hd, he, if_pos het]
        by_cases hk : k = key
        · subst hk
          unfold read
          simp [hd, he, lt_of_lt_of_le het ht]
        · unfold read
          simp [hk]
      · simp [hd, he, het]

/-- What a key reads as after `set`. -/
theorem read_set (s : MemStore α) (key : String) (v : α) (ttl : Option ℚ)
    (t : ℚ) (k : String) (t' : ℚ) :
    ((s.set key v ttl t).read k t') =
      if k = key then
        match ttl with
        | some d => if t + d < t' then none else some v
        | none => some v
      else s.read k t' := by
  unfold set read
  by_cases hk : k = key
  · subst hk
    cases ttl with
    | none => simp
    | some d => by_cases hd : t + d < t' <;> simp [hd]
  · simp [hk]

/-- What a key reads as after `delete`. -/
theorem read_delete (s : MemStore α) (key k : String) (t' : ℚ) :
    ((s.delete key).read k t') = if k = key then none else s.read k t' := by
  unfold delete read
  by_cases hk : k = key <;> simp [hk]

/-- A key that reads as a value at a later time read as the same value at
any earlier time. -/
theorem read_mono (s : MemStore α) (k : String) {t t' : ℚ} (ht : t ≤ t') :
    s.read k t' = s.read k t ∨ s.read k t' = none := by
  unfold read
  cases hd : s.data k with
  | none => simp [hd]
  | some v =>
    cases he : s.expiry k with
    | none => simp [hd, he]
    | some e =>
      by_cases het' : e < t'
      · simp [hd, he, het']
      · have het : ¬ e < t := fun h => het' (lt_of_lt_of_le h ht)
        simp [hd, he, het', het]

end MemStore

/-! ### Characterizations of the strategy steps through `read` -/

/-- The refilled token count the token bucket computes from a stored
state (`limit` for a fresh identifier, since the elapsed time is zero). -/
def tbRefilled (stored : Option BucketData) (limit w : ℤ) (t : ℚ) : ℚ :=
  min ((stored.getD { tokens := (limit : ℚ), last_refill := t }).tokens
        + (t - (stored.getD { tokens := (limit : ℚ), last_refill := t }).last_refill)
          * ((limit : ℚ) / (w : ℚ)))
      ((limit : ℚ))

/-- The token count the bucket persists: the refilled count, minus one
when a token is consumed. -/
def tbNewTokens (stored : Option BucketData) (limit w : ℤ) (t : ℚ) : ℚ :=
  if 1 ≤ tbRefilled stored limit w t then tbRefilled stored limit w t - 1
  else tbRefilled stored limit w t

/-- The `reset_at` value the token bucket reports. -/
def tbResetAt (stored : Option BucketData) (limit w : ℤ) (t : ℚ) : ℚ :=
  if tbNewTokens stored limit w t < (limit : ℚ) then
    t + (1 - pyMod1 (tbNewTokens stored limit w t)) / ((limit : ℚ) / (w : ℚ))
  else t

theorem tb_fst (s : MemStore BucketData) (id : String) (limit w : ℤ) (t : ℚ) :
    (TokenBucketStrategy.is_allowed s id limit w t).1
      = decide (1 ≤ tbRefilled (s.read id t) limit w t) := by
  simp only [TokenBucketStrategy.is_allowed, MemStore.get_fst, tbRefilled]

theorem tb_meta (s : MemStore BucketData) (id : String) (limit w : ℤ) (t : ℚ) :
    (TokenBucketStrategy.is_allowed s id limit w t).2.1
      = { remaining := pyInt (tbNewTokens (s.read id t) limit w t),
          limit := limit,
          reset_at := pyInt (tbResetAt (s.read id t) limit w t),
          retry_after :=
            if decide (1 ≤ tbRefilled (s.read id t) limit w t) then 0
            else pyInt (tbResetAt (s.read id t) limit w t - t) } := by
  simp only [TokenBucketStrategy.is_allowed, MemStore.get_fst, tbRefilled, tbNewTokens,
    tbResetAt]

theorem tb_read (s : MemStore BucketData) (id : String) (limit w : ℤ) (t : ℚ)
    (k : String) (t' : ℚ) (ht : t ≤ t') :
    ((TokenBucketStrategy.is_allowed s id limit w t).2.2).read k t'
      = if k = id then
          (if t + ((w * 2 : ℤ) : ℚ) < t' then none
           else some { tokens := tbNewTokens (s.read id t) limit w t, last_refill := t })
        else s.read k t' := by
  simp only [TokenBucketStrategy.is_allowed, MemStore.get_fst, tbRefilled, tbNewTokens]
  rw [MemStore.read_set]
  by_cases hk : k = id
  · simp [hk]
  · simp [hk, MemStore.get_snd_read s id ht k]

/-- The pruned request log the sliding window computes. -/
def swPruned (stored : Option (List ℚ)) (w : ℤ) (t : ℚ) : List ℚ :=
  (stored.getD []).filter (fun ts => decide (t - (w : ℚ) < ts))

/-- The request log after the sliding-window decision (extended by the
current timestamp exactly when the request is admitted). -/
def swLog2 (stored : Option (List ℚ)) (limit w : ℤ) (t : ℚ) : List ℚ :=
  if ((swPruned stored w t).length : ℤ) < limit then swPruned stored w t ++ [t]
  else swPruned stored w t

/-- The `reset_at` value the sliding window reports. -/
def swResetAt (stored : Option (List ℚ)) (limit w : ℤ) (t : ℚ) : ℚ :=
  match (swLog2 stored limit w t).min? with
  | some oldest => oldest + (w : ℚ)
  | none => t + (w : ℚ)

theorem sw_fst (s : MemStore (List ℚ)) (id : String) (limit w : ℤ) (t : ℚ) :
    (SlidingWindowStrategy.is_allowed s id limit w t).1
      = decide (((swPruned (s.read id t) w t).length : ℤ) < limit) := by
  simp only [SlidingWindowStrategy.is_allowed, MemStore.get_fst, swPruned]

theorem sw_meta (s : MemStore (List ℚ)) (id : String) (limit w : ℤ) (t : ℚ) :
    (SlidingWindowStrategy.is_allowed s id limit w t).2.1
      = { remaining := max 0 (limit - ((swLog2 (s.read id t) limit w t).length : ℤ)),
          limit := limit,
          reset_at := pyInt (swResetAt (s.read id t) limit w t),
          retry_after :=
            if decide (((swPruned (s.read id t) w t).length : ℤ) < limit) then 0
            else max 0 (pyInt (swResetAt (s.read id t) limit w t - t)) } := by
  simp only [SlidingWindowStrategy.is_allowed, MemStore.get_fst, swPruned, swLog2, swResetAt]
  by_cases ha : ((((s.read id t).getD []).filter (fun ts => decide (t - (w : ℚ) < ts))).length : ℤ) < limit
  · simp [ha]
  · simp [ha]

theorem sw_read (s : MemStore (List ℚ)) (id : String) (limit w : ℤ) (t : ℚ)
    (k : String) (t' : ℚ) (ht : t ≤ t') :
    ((SlidingWindowStrategy.is_allowed s id limit w t).2.2).read k t'
      = if ((swPruned (s.read id t) w t).length : ℤ) < limit ∧ k = id then
          (if t + ((w * 2 : ℤ) : ℚ) < t' then none
           else some (swPruned (s.read id t) w t ++ [t]))
        else s.read k t' := by
  simp only [SlidingWindowStrategy.is_allowed, MemStore.get_fst, swPruned]
  by_cases ha : ((((s.read id t).getD []).filter (fun ts => decide (t - (w : ℚ) < ts))).length : ℤ) < limit
  · simp only [decide_eq_true ha, if_true, eq_self_iff_true]
    rw [MemStore.read_set]
    by_cases hk : k = id
    · simp [hk, ha]
    · simp [hk, ha, MemStore.get_snd_read s id ht k]
  · simp only [decide_eq_false ha, Bool.false_eq_true, if_false]
    rw [MemStore.get_snd_read s id ht k]
    simp [ha]

/-- The window index `int(current_time // window_seconds)`. -/
def fwWid (w : ℤ) (t : ℚ) : ℤ := ⌊t / (w : ℚ)⌋

/-- The composite storage key of the fixed-window strategy. -/
def fwKey (id : String) (w : ℤ) (t : ℚ) : String :=
  id ++ ":" ++ toString (fwWid w t)

/-- The counter value the fixed window works from: the stored count when
the stored window index matches, zero otherwise. -/
def fwCount (stored : Option WindowData) (wid : ℤ) : ℤ :=
  match stored with
  | none => 0
  | some wd => if wd.window_id = wid then wd.count else 0

theorem fw_window_data (stored : Option WindowData) (wid : ℤ) :
    (if (stored.getD { count := 0, window_id := wid }).window_id ≠ wid then
        ({ count := 0, window_id := wid } : WindowData)
     else stored.getD { count := 0, window_id := wid })
      = { count := fwCount stored wid, window_id := wid } := by
  cases stored with
  | none => simp [fwCount]
  | some wd =>
    by_cases hw : wd.window_id = wid
    · subst hw
      simp [fwCount]
    · simp [fwCount, hw]

theorem fw_fst (s : MemStore WindowData) (id : String) (limit w : ℤ) (t : ℚ) :
    (FixedWindowStrategy.is_allowed s id limit w t).1
      = decide (fwCount (s.read (fwKey id w t) t) (fwWid w t) < limit) := by
  simp only [FixedWindowStrategy.is_allowed, MemStore.get_fst, fwKey, fwWid, fw_window_data]

theorem fw_meta (s : MemStore WindowData) (id : String) (limit w : ℤ) (t : ℚ) :
    (FixedWindowStrategy.is_allowed s id limit w t).2.1
      = { remaining := max 0 (limit -
            (if fwCount (s.read (fwKey id w t) t) (fwWid w t) < limit then
              fwCount (s.read (fwKey id w t) t) (fwWid w t) + 1
             else fwCount (s.read (fwKey id w t) t) (fwWid w t))),
          limit := limit,
          reset_at := pyInt ((((fwWid w t + 1) * w : ℤ) : ℚ)),
          retry_after :=
            if decide (fwCount (s.read (fwKey id w t) t) (fwWid w t) < limit) then 0
            else pyInt ((((fwWid w t + 1) * w : ℤ) : ℚ) - t) } := by
  simp only [FixedWindowStrategy.is_allowed, MemStore.get_fst, fwKey, fwWid, fw_window_data]
  by_cases ha : fwCount (s.read (id ++ ":" ++ toString ⌊t / (w : ℚ)⌋) t) ⌊t / (w : ℚ)⌋ < limit
  · simp [ha]
  · simp [ha]

theorem fw_read (s : MemStore WindowData) (id : String) (limit w : ℤ) (t : ℚ)
    (k : String) (t' : ℚ) (ht : t ≤ t') :
    ((FixedWindowStrategy.is_allowed s id limit w t).2.2).read k t'
      = if fwCount (s.read (fwKey id w t) t) (fwWid w t) < limit ∧ k = fwKey id w t then
          (if t + ((w * 2 : ℤ) : ℚ) < t' then none
           else some { count := fwCount (s.read (fwKey id w t) t) (fwWid w t) + 1,
                       window_id := fwWid w t })
        else s.read k t' := by
  simp only [FixedWindowStrategy.is_allowed, MemStore.get_fst, fwKey, fwWid, fw_window_data]
  by_cases ha : fwCount (s.read (id ++ ":" ++ toString ⌊t / (w : ℚ)⌋) t) ⌊t / (w : ℚ)⌋ < limit
  · simp only [decide_eq_true ha, if_true, eq_self_iff_true]
    rw [MemStore.read_set]
    by_cases hk : k = id ++ ":" ++ toString ⌊t / (w : ℚ)⌋
    · simp [hk, ha]
    · simp [hk, ha, MemStore.get_snd_read s _ ht k]
  · simp only [decide_eq_false ha, Bool.false_eq_true, if_false]
    rw [MemStore.get_snd_read s _ ht k]
    simp [ha]

/-! ### Arithmetic facts about the token-bucket quantities -/

theorem tbRefilled_none (limit w : ℤ) (t : ℚ) :
    tbRefilled none limit w t = (limit : ℚ) := by
  simp [tbRefilled]

theorem tbRefilled_some (b : BucketData) (limit w : ℤ) (t : ℚ) :
    tbRefilled (some b) limit w t
      = min (b.tokens + (t - b.last_refill) * ((limit : ℚ) / (w : ℚ))) ((limit : ℚ)) := by
  simp [tbRefilled]

theorem tbRefilled_nonneg (stored : Option BucketData) (limit w : ℤ) (t : ℚ)
    (hl : 0 < limit) (hw : 0 < w)
    (hb : ∀ b, stored = some b → 0 ≤ b.tokens ∧ b.last_refill ≤ t) :
    0 ≤ tbRefilled stored limit w t := by
  have hlq : (0 : ℚ) ≤ (limit : ℚ) := by exact_mod_cast hl.le
  cases stored with
  | none => rw [tbRefilled_none]; exact hlq
  | some b =>
    obtain ⟨h1, h2⟩ := hb b rfl
    rw [tbRefilled_some]
    have hwq : (0 : ℚ) ≤ (w : ℚ) := by exact_mod_cast hw.le
    have hr : (0 : ℚ) ≤ (limit : ℚ) / (w : ℚ) := div_nonneg hlq hwq
    have hm : (0 : ℚ) ≤ (t - b.last_refill) * ((limit : ℚ) / (w : ℚ)) :=
      mul_nonneg (sub_nonneg.2 h2) hr
    exact le_min (by linarith) hlq

theorem tbRefilled_le (stored : Option BucketData) (limit w : ℤ) (t : ℚ) :
    tbRefilled stored limit w t ≤ (limit : ℚ) := by
  cases stored with
  | none => rw [tbRefilled_none]
  | some b => rw [tbRefilled_some]; exact min_le_right _ _

theorem tbNewTokens_eq (stored : Option BucketData) (limit w : ℤ) (t : ℚ) :
    tbNewTokens stored limit w t
      = if 1 ≤ tbRefilled stored limit w t then tbRefilled stored limit w t - 1
        else tbRefilled stored limit w t := rfl

theorem tbNewTokens_nonneg (stored : Option BucketData) (limit w : ℤ) (t : ℚ)
    (hl : 0 < limit) (hw : 0 < w)
    (hb : ∀ b, stored = some b → 0 ≤ b.tokens ∧ b.last_refill ≤ t) :
    0 ≤ tbNewTokens stored limit w t := by
  rw [tbNewTokens_eq]
  split
  · linarith
  · exact tbRefilled_nonneg stored limit w t hl hw hb

theorem tbNewTokens_le (stored : Option BucketData) (limit w : ℤ) (t : ℚ) :
    tbNewTokens stored limit w t ≤ (limit : ℚ) := by
  rw [tbNewTokens_eq]
  have := tbRefilled_le stored limit w t
  split <;> linarith

theorem tb_data (s : MemStore BucketData) (id : String) (limit w : ℤ) (t : ℚ) :
    ((TokenBucketStrategy.is_allowed s id limit w t).2.2).data id
      = some { tokens := tbNewTokens (s.read id t) limit w t, last_refill := t } := by
  simp only [TokenBucketStrategy.is_allowed, MemStore.get_fst, tbRefilled, tbNewTokens,
    MemStore.set]
  simp

/-- With a nonzero window, the line-119 guard of `is_allowedE` is the
persisted token count dropping below the limit with a zero refill rate. -/
theorem tb_is_allowedE_eq (s : MemStore BucketData) (id : String)
    (limit w : ℤ) (t : ℚ) (hw : w ≠ 0) :
    TokenBucketStrategy.is_allowedE s id limit w t
      = if tbNewTokens (s.read id t) limit w t < (limit : ℚ)
           ∧ (limit : ℚ) / (w : ℚ) = 0
        then Except.error PyError.zeroDivision
        else Except.ok (TokenBucketStrategy.is_allowed s id limit w t) := by
  simp only [TokenBucketStrategy.is_allowedE, if_neg hw, MemStore.get_fst,
    tbRefilled, tbNewTokens]

/-! ### C7 : expired entries are invisible to `get` -/

/-- C7: for every key stored in `InMemoryStorage` with a TTL, once the
current time is strictly past the entry's expiry timestamp, `get`
returns `None`, whether or not the periodic cleanup sweep has run. -/
theorem C7_expired_get_none {α : Type} (s : MemStore α) (key : String) (t e : ℚ)
    (hk : s.expiry key = some e) (ht : e < t) :
    (s.get key t).1 = none := by
  rw [MemStore.get_fst]
  unfold MemStore.read
  cases hd : s.data key with
  | none => simp [hd]
  | some v => simp [hd, hk, ht]

theorem C7_expired_get_none_witness :
    ((MemStore.init 60 0).set "k" (42 : ℤ) (some 5) 0).expiry "k" = some 5
    ∧ (5 : ℚ) < 6
    ∧ (((MemStore.init 60 0).set "k" (42 : ℤ) (some 5) 0).get "k" 6).1 = none := by
  have h1 : ((MemStore.init 60 0).set "k" (42 : ℤ) (some 5) 0).expiry "k" = some 5 := by
    show Option.map _ (some (5 : ℚ)) = some 5
    norm_num
  exact ⟨h1, by norm_num, C7_expired_get_none _ "k" 6 5 h1 (by norm_num)⟩

/-! ### C5 : the concrete sliding-window scenario -/

theorem sw_c5_eval :
    ((SlidingWindowStrategy.run (MemStore.init 60 0) "id" 3 10 [0, 1, 2, 3, 11]).1.map
        (fun p => (p.1, p.2.remaining)))
      = [(true, 2), (true, 1), (true, 0), (false, 0), (true, 1)] := by
  simp [SlidingWindowStrategy.run, SlidingWindowStrategy.is_allowed, MemStore.get,
    MemStore.maybeCleanup, MemStore.cleanupNow, MemStore.set, MemStore.init]
  norm_num

/-- C5 counterexample: with `limit = 3`, `window = 10` and calls at
`t = 0, 1, 2, 3, 11`, the call at `t = 11` is admitted with
`remaining = 1`, not `remaining = 0`: the prune keeps only timestamps
strictly greater than `t - window = 1`, so both the `t = 0` and the
`t = 1` entries have expired from the window. -/
theorem C5_remaining_not_zero :
    (((SlidingWindowStrategy.run (MemStore.init 60 0) "id" 3 10 [0, 1, 2, 3, 11]).1.map
        (fun p => (p.1, p.2.remaining))).getLast? = some (true, 1))
    ∧ some ((true : Bool), (1 : ℤ)) ≠ some ((true : Bool), (0 : ℤ)) := by
  rw [sw_c5_eval]
  refine ⟨rfl, by decide⟩

/-- C5 amended: with `limit = 3`, `window = 10`, starting from no state,
checks at `t = 0, 1, 2` are admitted, the check at `t = 3` is denied,
and the check at `t = 11` is admitted with `remaining = 1` (the `t = 0`
and `t = 1` entries have both left the trailing window `(1, 11]`). -/
theorem C5_sliding_window_scenario_amended :
    ((SlidingWindowStrategy.run (MemStore.init 60 0) "id" 3 10 [0, 1, 2, 3, 11]).1.map
        (fun p => (p.1, p.2.remaining)))
      = [(true, 2), (true, 1), (true, 0), (false, 0), (true, 1)] :=
  sw_c5_eval

/-! ### C8 : no ConfigurationError exists on the check path -/

/-- C8 counterexample: a `check` with `window_seconds = 0` does not fail
fast with a configuration error: it raises `ZeroDivisionError` (token
bucket and fixed window); and a token-bucket `check` with `limit = 0` on
a fresh identifier raises nothing at all and silently denies. -/
theorem C8_zero_division_counterexample :
    TokenBucketStrategy.is_allowedE (MemStore.init 60 0) "id" 5 0 0
      = Except.error PyError.zeroDivision
    ∧ FixedWindowStrategy.is_allowedE (MemStore.init 60 0) "id" 5 0 0
      = Except.error PyError.zeroDivision
    ∧ (TokenBucketStrategy.is_allowedE (MemStore.init 60 0) "id" 0 10 0).toOption.map
        Prod.fst = some false := by
  refine ⟨rfl, rfl, ?_⟩
  rw [tb_is_allowedE_eq (MemStore.init 60 0) "id" 0 10 0 (by norm_num),
    MemStore.read_init]
  have h1 : tbNewTokens none (0 : ℤ) (10 : ℤ) (0 : ℚ) = 0 := by
    rw [tbNewTokens_eq, tbRefilled_none]
    norm_num
  rw [h1, if_neg (by norm_num)]
  simp only [Except.toOption, Option.map, tb_fst, MemStore.read_init, Option.some.injEq]
  norm_num [tbRefilled]

/-- C8 amended: `check` performs no parameter validation and no
`ConfigurationError` exists.  With `window_seconds = 0` the token-bucket
and fixed-window strategies raise `ZeroDivisionError` (an unrelated
arithmetic error).  With `limit ≤ 0` and a nonzero window the token
bucket raises no configuration error either: when the identifier has no
stored state, or its stored token count is nonnegative, it silently
denies without raising; but with `limit = 0` and a negative stored token
count (reachable by a prior `check` with a negative limit) it raises
`ZeroDivisionError` at the line-119 division by `refill_rate = 0.0`. -/
theorem C8_no_configuration_error_amended :
    (∀ (s : MemStore BucketData) (id : String) (limit : ℤ) (t : ℚ),
      TokenBucketStrategy.is_allowedE s id limit 0 t = Except.error PyError.zeroDivision)
    ∧ (∀ (s : MemStore WindowData) (id : String) (limit : ℤ) (t : ℚ),
      FixedWindowStrategy.is_allowedE s id limit 0 t = Except.error PyError.zeroDivision)
    ∧ (∀ (s : MemStore BucketData) (id : String) (limit w : ℤ) (t : ℚ),
      limit ≤ 0 → w ≠ 0 →
      (∀ b, s.read id t = some b → 0 ≤ b.tokens) →
      (TokenBucketStrategy.is_allowedE s id limit w t).toOption.map Prod.fst
        = some false)
    ∧ (∀ (s : MemStore BucketData) (id : String) (w : ℤ) (t : ℚ) (b : BucketData),
      w ≠ 0 → s.read id t = some b → b.tokens < 0 →
      TokenBucketStrategy.is_allowedE s id 0 w t = Except.error PyError.zeroDivision) := by
  refine ⟨fun s id limit t => rfl, fun s id limit t => rfl, ?_, ?_⟩
  · intro s id limit w t hlim hw hb
    have hlimq : (limit : ℚ) ≤ 0 := by exact_mod_cast hlim
    rw [tb_is_allowedE_eq s id limit w t hw]
    have hcond : ¬ (tbNewTokens (s.read id t) limit w t < (limit : ℚ)
        ∧ (limit : ℚ) / (w : ℚ) = 0) := by
      rcases lt_or_eq_of_le hlim with hlt | heq
      · rintro ⟨-, hrate⟩
        have hlq : (limit : ℚ) < 0 := by exact_mod_cast hlt
        have hwq : (w : ℚ) ≠ 0 := by exact_mod_cast hw
        rcases div_eq_zero_iff.mp hrate with h0 | h0
        · exact absurd h0 (ne_of_lt hlq)
        · exact hwq h0
      · subst heq
        rintro ⟨hnt, -⟩
        have hnew : tbNewTokens (s.read id t) 0 w t = 0 := by
          cases hrd : s.read id t with
          | none =>
            rw [tbNewTokens_eq, tbRefilled_none]
            norm_num
          | some b =>
            have hb' := hb b hrd
            have hr : tbRefilled (some b) 0 w t = 0 := by
              rw [tbRefilled_some]
              push_cast
              rw [zero_div, mul_zero, add_zero]
              exact min_eq_right hb'
            rw [tbNewTokens_eq, hr]
            norm_num
        rw [hnew] at hnt
        norm_num at hnt
    rw [if_neg hcond]
    simp only [Except.toOption, Option.map, tb_fst, Option.some.injEq]
    refine decide_eq_false ?_
    intro h1
    have hle := tbRefilled_le (s.read id t) limit w t
    linarith
  · intro s id w t b hw hread hb
    rw [tb_is_allowedE_eq s id 0 w t hw, hread]
    have hr : tbRefilled (some b) 0 w t = b.tokens := by
      rw [tbRefilled_some]
      push_cast
      rw [zero_div, mul_zero, add_zero]
      exact min_eq_left (le_of_lt hb)
    have hn : tbNewTokens (some b) 0 w t = b.tokens := by
      rw [tbNewTokens_eq, hr, if_neg (by linarith : ¬ (1 : ℚ) ≤ b.tokens)]
    rw [if_pos ⟨by rw [hn]; exact_mod_cast hb, by norm_num⟩]

theorem C8_no_configuration_error_amended_witness :
    TokenBucketStrategy.is_allowedE (MemStore.init 60 0) "u" 7 0 3
      = Except.error PyError.zeroDivision
    ∧ ((0 : ℤ) ≤ 0 ∧ (10 : ℤ) ≠ 0
      ∧ (MemStore.init 60 0 : MemStore BucketData).read "u" 3 = none
      ∧ (TokenBucketStrategy.is_allowedE (MemStore.init 60 0) "u" 0 10 3).toOption.map
          Prod.fst = some false)
    ∧ ((5 : ℤ) ≠ 0
      ∧ ((TokenBucketStrategy.is_allowed (MemStore.init 60 0) "u" (-5) 5 0).2.2).read "u" 0
          = some { tokens := -5, last_refill := 0 }
      ∧ ({ tokens := -5, last_refill := 0 } : BucketData).tokens < 0
      ∧ TokenBucketStrategy.is_allowedE
          ((TokenBucketStrategy.is_allowed (MemStore.init 60 0) "u" (-5) 5 0).2.2)
          "u" 0 5 0
        = Except.error PyError.zeroDivision) := by
  have hread : ((TokenBucketStrategy.is_allowed (MemStore.init 60 0) "u" (-5) 5 0).2.2).read
      "u" 0 = some { tokens := -5, last_refill := 0 } := by
    rw [tb_read (MemStore.init 60 0) "u" (-5) 5 0 "u" 0 le_rfl, MemStore.read_init,
      if_pos rfl]
    norm_num [tbNewTokens_eq, tbRefilled_none]
  refine ⟨C8_no_configuration_error_amended.1 (MemStore.init 60 0) "u" 7 3,
    ⟨le_rfl, by norm_num, MemStore.read_init 60 0 "u" 3,
      C8_no_configuration_error_amended.2.2.1 (MemStore.init 60 0) "u" 0 10 3
        le_rfl (by norm_num)
        (fun b hb => by rw [MemStore.read_init] at hb; exact Option.noConfusion hb)⟩,
    ⟨by norm_num, hread, by norm_num,
      C8_no_configuration_error_amended.2.2.2
        ((TokenBucketStrategy.is_allowed (MemStore.init 60 0) "u" (-5) 5 0).2.2)
        "u" 5 0 { tokens := -5, last_refill := 0 }
        (by norm_num) hread (by norm_num)⟩⟩

/-! ### C1 : `reset` does not clear fixed-window state -/

/-- C1: the failing input.  With the fixed-window strategy
(`limit = 1`, `window = 10`): a fresh check at `t = 0` is admitted; after
`reset("id")` the next check at `t = 1` is still denied, although a
first-ever check at `t = 1` is admitted.  `reset` deletes the key
`"id"`, but the counter lives under `"id:0"`. -/
theorem C1_fixed_window_reset_ineffective :
    (FixedWindowStrategy.is_allowed (MemStore.init 60 0) "id" 1 10 0).1 = true
    ∧ (FixedWindowStrategy.is_allowed
        (FixedWindowStrategy.reset
          (FixedWindowStrategy.is_allowed (MemStore.init 60 0) "id" 1 10 0).2.2 "id")
        "id" 1 10 1).1 = false
    ∧ (FixedWindowStrategy.is_allowed (MemStore.init 60 0) "id" 1 10 1).1 = true := by
  have hwid0 : fwWid 10 (0 : ℚ) = 0 := by
    unfold fwWid
    norm_num
  have hwid1 : fwWid 10 (1 : ℚ) = 0 := by
    unfold fwWid
    norm_num
  have hkey0 : fwKey "id" 10 0 = "id:0" := by
    unfold fwKey
    rw [hwid0]
    rfl
  have hkey1 : fwKey "id" 10 1 = "id:0" := by
    unfold fwKey
    rw [hwid1]
    rfl
  refine ⟨?_, ?_, ?_⟩
  · rw [fw_fst, hkey0, hwid0, MemStore.read_init]
    decide
  · rw [fw_fst, hkey1, hwid1]
    have hs2 : (FixedWindowStrategy.reset
        (FixedWindowStrategy.is_allowed (MemStore.init 60 0) "id" 1 10 0).2.2 "id").read
          "id:0" 1
        = some { count := 1, window_id := 0 } := by
      unfold FixedWindowStrategy.reset
      rw [MemStore.read_delete]
      rw [if_neg (by decide : ¬ ("id:0" = "id"))]
      rw [fw_read (MemStore.init 60 0) "id" 1 10 0 "id:0" 1 (by norm_num)]
      rw [hkey0, hwid0, MemStore.read_init]
      rw [if_pos ⟨by decide, rfl⟩]
      rw [if_neg (by push_cast ; norm_num : ¬ ((0 : ℚ) + ((10 * 2 : ℤ) : ℚ) < 1))]
      decide
    rw [hs2]
    decide
  · rw [fw_fst, hkey1, hwid1, MemStore.read_init]
    decide

/-! ### C2 : the token-bucket transition matches the spec's description -/

/-- The spec's §4.2 description of one token-bucket `check`, stated in
the spec's own words for comparison with the code: with no prior state
`tokens = limit`; otherwise
`tokens = min(limit, stored_tokens + (t - last_refill) * (limit / window_seconds))`;
a token is consumed iff `tokens ≥ 1`; the pair `(tokens, t)` is
persisted in both outcomes; `remaining = floor(tokens)` after any
consumption.  Returns `(allowed, persisted state, remaining)`. -/
def specTokenBucketStep (stored : Option BucketData) (limit window_seconds : ℤ)
    (t : ℚ) : Bool × BucketData × ℤ :=
  let tokens : ℚ :=
    match stored with
    | none => (limit : ℚ)
    | some b =>
      min ((limit : ℚ))
        (b.tokens + (t - b.last_refill) * ((limit : ℚ) / (window_seconds : ℚ)))
  let allowed := decide (1 ≤ tokens)
  let tokens2 := if 1 ≤ tokens then tokens - 1 else tokens
  (allowed, { tokens := tokens2, last_refill := t }, ⌊tokens2⌋)

theorem spec_tokens_eq_tbRefilled (stored : Option BucketData) (limit w : ℤ) (t : ℚ) :
    (match stored with
     | none => (limit : ℚ)
     | some b =>
       min ((limit : ℚ)) (b.tokens + (t - b.last_refill) * ((limit : ℚ) / (w : ℚ))))
      = tbRefilled stored limit w t := by
  cases stored with
  | none => rw [tbRefilled_none]
  | some b => rw [tbRefilled_some, min_comm]

/-- C2: for every identifier, `limit > 0`, `window_seconds > 0`, time
`t` and stored state arising from earlier calls (nonnegative tokens,
refill stamp not in the future), `TokenBucketStrategy.is_allowed`
decides and transitions exactly as the spec describes: fresh state
initializes a full bucket, otherwise the refill formula applies, one
token is consumed iff `tokens ≥ 1`, the pair `(tokens, t)` is persisted
in both outcomes, and `remaining = ⌊tokens⌋` post-consumption. -/
theorem C2_token_bucket_matches_spec (s : MemStore BucketData) (identifier : String)
    (limit window : ℤ) (t : ℚ) (hl : 0 < limit) (hw : 0 < window)
    (hs : ∀ b, s.read identifier t = some b → 0 ≤ b.tokens ∧ b.last_refill ≤ t) :
    (TokenBucketStrategy.is_allowed s identifier limit window t).1
      = (specTokenBucketStep (s.read identifier t) limit window t).1
    ∧ (TokenBucketStrategy.is_allowed s identifier limit window t).2.1.remaining
      = (specTokenBucketStep (s.read identifier t) limit window t).2.2
    ∧ ((TokenBucketStrategy.is_allowed s identifier limit window t).2.2).data identifier
      = some (specTokenBucketStep (s.read identifier t) limit window t).2.1 := by
  simp only [specTokenBucketStep, spec_tokens_eq_tbRefilled, ← tbNewTokens_eq]
  refine ⟨?_, ?_, ?_⟩
  · rw [tb_fst]
  · rw [tb_meta]
    exact pyInt_eq_floor (tbNewTokens_nonneg _ limit window t hl hw hs)
  · rw [tb_data]

theorem C2_token_bucket_matches_spec_witness :
    (0 : ℤ) < 5 ∧ (0 : ℤ) < 10
    ∧ ((TokenBucketStrategy.is_allowed (MemStore.init 60 0) "u" 5 10 0).1
        = (specTokenBucketStep ((MemStore.init 60 0 : MemStore BucketData).read "u" 0) 5 10 0).1
      ∧ (TokenBucketStrategy.is_allowed (MemStore.init 60 0) "u" 5 10 0).2.1.remaining
        = (specTokenBucketStep ((MemStore.init 60 0 : MemStore BucketData).read "u" 0) 5 10 0).2.2
      ∧ ((TokenBucketStrategy.is_allowed (MemStore.init 60 0) "u" 5 10 0).2.2).data "u"
        = some (specTokenBucketStep ((MemStore.init 60 0 : MemStore BucketData).read "u" 0) 5 10 0).2.1) :=
  ⟨by norm_num, by norm_num,
   C2_token_bucket_matches_spec (MemStore.init 60 0) "u" 5 10 0 (by norm_num) (by norm_num)
     (fun b hb => by rw [MemStore.read_init] at hb; cases hb)⟩

/-! ### C10 : `get_limits` consumes quota exactly like `check` -/

/-- C10: `RateLimiter.get_limits`, documented as returning the status
"without consuming a request", performs exactly the state transition of
`check` (it returns `check`'s metadata and post-state for every limiter,
identifier, override pair and time); consequently, on a fresh token
bucket with `limit ≥ 2`, a `check` issued after one `get_limits` sees
`remaining = limit - 2` — one unit lower than the `limit - 1` a first
`check` reports — so `get_limits` consumed quota. -/
theorem C10_get_limits_consumes :
    (∀ (rl : RateLimiter) (id : String) (lim win : Option ℤ) (t : ℚ),
      RateLimiter.get_limits rl id lim win t
        = ((RateLimiter.check rl id lim win t).2.1,
           (RateLimiter.check rl id lim win t).2.2))
    ∧ (∀ (s : MemStore BucketData) (limit window : ℤ) (id : String) (t : ℚ),
      2 ≤ limit → 0 < window → s.read id t = none →
      (RateLimiter.check
          { strat := .token_bucket s, default_limit := limit, default_window := window }
          id none none t).2.1.remaining = limit - 1
      ∧ (RateLimiter.check
          ((RateLimiter.get_limits
            { strat := .token_bucket s, default_limit := limit, default_window := window }
            id none none t).2) id none none t).2.1.remaining = limit - 2) := by
  constructor
  · intro rl id lim win t
    cases rl with
    | mk strat dl dw => cases strat <;> rfl
  · intro s limit window id t hl hw hread
    have hl1 : (1 : ℚ) ≤ (limit : ℚ) := by exact_mod_cast by linarith
    have hl2 : (1 : ℚ) ≤ (limit : ℚ) - 1 := by
      have : (2 : ℚ) ≤ (limit : ℚ) := by exact_mod_cast hl
      linarith
    have hwq : (0 : ℚ) < (window : ℚ) := by exact_mod_cast hw
    have hr0 : tbRefilled (some { tokens := (limit : ℚ) - 1, last_refill := t })
        limit window t = (limit : ℚ) - 1 := by
      rw [tbRefilled_some]
      simp only [sub_self, zero_mul, add_zero]
      exact min_eq_left (by linarith)
    have ht1 : tbNewTokens ((s.read id t)) limit window t = (limit : ℚ) - 1 := by
      rw [hread, tbNewTokens_eq, tbRefilled_none, if_pos hl1]
    have hmeta1 : (TokenBucketStrategy.is_allowed s id limit window t).2.1.remaining
        = limit - 1 := by
      rw [tb_meta]
      simp only
      rw [ht1, show (limit : ℚ) - 1 = ((limit - 1 : ℤ) : ℚ) from by push_cast ; ring,
        pyInt_intCast]
    have hread2 : ((TokenBucketStrategy.is_allowed s id limit window t).2.2).read id t
        = some { tokens := (limit : ℚ) - 1, last_refill := t } := by
      rw [tb_read s id limit window t id t le_rfl, if_pos rfl,
        if_neg (by push_cast ; linarith : ¬ (t + ((window * 2 : ℤ) : ℚ) < t)), ht1]
    have hmeta2 : (TokenBucketStrategy.is_allowed
        ((TokenBucketStrategy.is_allowed s id limit window t).2.2)
        id limit window t).2.1.remaining = limit - 2 := by
      rw [tb_meta]
      simp only
      rw [hread2, tbNewTokens_eq, hr0, if_pos hl2,
        show (limit : ℚ) - 1 - 1 = ((limit - 2 : ℤ) : ℚ) from by push_cast ; ring,
        pyInt_intCast]
    refine ⟨?_, ?_⟩
    · simpa only [RateLimiter.check, StratState.is_allowed, Option.getD] using hmeta1
    · simpa only [RateLimiter.check, RateLimiter.get_limits, StratState.is_allowed,
        Option.getD] using hmeta2

theorem C10_get_limits_consumes_witness :
    (2 : ℤ) ≤ 3 ∧ (0 : ℤ) < 10
    ∧ (MemStore.init 60 0 : MemStore BucketData).read "u" 0 = none
    ∧ (RateLimiter.check
        { strat := .token_bucket (MemStore.init 60 0), default_limit := 3, default_window := 10 }
        "u" none none 0).2.1.remaining = 3 - 1
    ∧ (RateLimiter.check
        ((RateLimiter.get_limits
          { strat := .token_bucket (MemStore.init 60 0), default_limit := 3, default_window := 10 }
          "u" none none 0).2) "u" none none 0).2.1.remaining = 3 - 2 := by
  have h := C10_get_limits_consumes.2 (MemStore.init 60 0) 3 10 "u" 0
    (by norm_num) (by norm_num) rfl
  exact ⟨by norm_num, by norm_num, rfl, h.1, h.2⟩

/-! ### C3 : reachable states and the metadata invariant -/

/-- Token-bucket stores reachable from a fresh `InMemoryStorage` by
checks with positive parameters at nondecreasing times, resets, and the
passage of time.  The second argument is the current clock. -/
inductive TBReachable : MemStore BucketData → ℚ → Prop where
  | init : ∀ (ci t0 t : ℚ), TBReachable (MemStore.init ci t0) t
  | step : ∀ {s : MemStore BucketData} {t : ℚ} (id : String) (l w : ℤ) (t' : ℚ),
      TBReachable s t → 0 < l → 0 < w → t ≤ t' →
      TBReachable (TokenBucketStrategy.is_allowed s id l w t').2.2 t'
  | reset : ∀ {s : MemStore BucketData} {t : ℚ} (id : String), TBReachable s t →
      TBReachable (TokenBucketStrategy.reset s id) t
  | tick : ∀ {s : MemStore BucketData} {t : ℚ} (t' : ℚ), TBReachable s t → t ≤ t' →
      TBReachable s t'

/-- Fixed-window stores reachable the same way. -/
inductive FWReachable : MemStore WindowData → ℚ → Prop where
  | init : ∀ (ci t0 t : ℚ), FWReachable (MemStore.init ci t0) t
  | step : ∀ {s : MemStore WindowData} {t : ℚ} (id : String) (l w : ℤ) (t' : ℚ),
      FWReachable s t → 0 < l → 0 < w → t ≤ t' →
      FWReachable (FixedWindowStrategy.is_allowed s id l w t').2.2 t'
  | reset : ∀ {s : MemStore WindowData} {t : ℚ} (id : String), FWReachable s t →
      FWReachable (FixedWindowStrategy.reset s id) t
  | tick : ∀ {s : MemStore WindowData} {t : ℚ} (t' : ℚ), FWReachable s t → t ≤ t' →
      FWReachable s t'

/-- The invariant a reachable token-bucket store satisfies: every live
entry has nonnegative tokens and a refill stamp not in the future. -/
def TBInv (s : MemStore BucketData) (t : ℚ) : Prop :=
  ∀ k b, s.read k t = some b → 0 ≤ b.tokens ∧ b.last_refill ≤ t

/-- The invariant a reachable fixed-window store satisfies: every live
counter is nonnegative. -/
def FWInv (s : MemStore WindowData) (t : ℚ) : Prop :=
  ∀ k wd, s.read k t = some wd → 0 ≤ wd.count

theorem tbinv_mono {s : MemStore BucketData} {t t' : ℚ}
    (h : TBInv s t) (ht : t ≤ t') : TBInv s t' := by
  intro k b hb
  rcases MemStore.read_mono s k ht with hm | hm
  · rw [hb] at hm
    obtain ⟨h1, h2⟩ := h k b hm.symm
    exact ⟨h1, le_trans h2 ht⟩
  · rw [hb] at hm
    cases hm

theorem fwinv_mono {s : MemStore WindowData} {t t' : ℚ}
    (h : FWInv s t) (ht : t ≤ t') : FWInv s t' := by
  intro k wd hb
  rcases MemStore.read_mono s k ht with hm | hm
  · rw [hb] at hm
    exact h k wd hm.symm
  · rw [hb] at hm
    cases hm

theorem tb_reachable_inv {s : MemStore BucketData} {t : ℚ}
    (h : TBReachable s t) : TBInv s t := by
  induction h with
  | init ci t0 t =>
    intro k b hb
    rw [MemStore.read_init] at hb
    cases hb
  | step id l w t' hre hl hw ht ih =>
    have ih' := tbinv_mono ih ht
    intro k b hb
    rw [tb_read _ id l w t' k t' le_rfl] at hb
    by_cases hk : k = id
    · rw [if_pos hk] at hb
      by_cases hex : t' + ((w * 2 : ℤ) : ℚ) < t'
      · rw [if_pos hex] at hb
        cases hb
      · rw [if_neg hex] at hb
        cases hb
        refine ⟨tbNewTokens_nonneg _ l w t' hl hw (fun b0 hb0 => ih' id b0 hb0), le_rfl⟩
    · rw [if_neg hk] at hb
      exact ih' k b hb
  | reset id hre ih =>
    intro k b hb
    unfold TokenBucketStrategy.reset at hb
    rw [MemStore.read_delete] at hb
    by_cases hk : k = id
    · rw [if_pos hk] at hb
      cases hb
    · rw [if_neg hk] at hb
      exact ih k b hb
  | tick t' hre ht ih => exact tbinv_mono ih ht

theorem fwCount_nonneg (stored : Option WindowData) (wid : ℤ)
    (h : ∀ wd, stored = some wd → 0 ≤ wd.count) : 0 ≤ fwCount stored wid := by
  cases stored with
  | none => simp [fwCount]
  | some wd =>
    have hwd := h wd rfl
    simp only [fwCount]
    split
    · exact hwd
    · exact le_refl 0

theorem fw_reachable_inv {s : MemStore WindowData} {t : ℚ}
    (h : FWReachable s t) : FWInv s t := by
  induction h with
  | init ci t0 t =>
    intro k wd hb
    rw [MemStore.read_init] at hb
    cases hb
  | step id l w t' hre hl hw ht ih =>
    have ih' := fwinv_mono ih ht
    intro k wd hb
    rw [fw_read _ id l w t' k t' le_rfl] at hb
    split at hb
    · split at hb
      · cases hb
      · cases hb
        have h0 := fwCount_nonneg _ (fwWid w t') (fun wd0 h0 => ih' (fwKey id w t') wd0 h0)
        simp only
        linarith
    · exact ih' k wd hb
  | reset id hre ih =>
    intro k wd hb
    unfold FixedWindowStrategy.reset at hb
    rw [MemStore.read_delete] at hb
    by_cases hk : k = id
    · rw [if_pos hk] at hb
      cases hb
    · rw [if_neg hk] at hb
      exact ih k wd hb
  | tick t' hre ht ih => exact fwinv_mono ih ht

theorem tbResetAt_sub_nonneg (stored : Option BucketData) (limit w : ℤ) (t : ℚ)
    (hl : 0 < limit) (hw : 0 < w)
    (hden : ¬ (1 ≤ tbRefilled stored limit w t)) :
    0 ≤ tbResetAt stored limit w t - t := by
  unfold tbResetAt
  have hnt : tbNewTokens stored limit w t = tbRefilled stored limit w t := by
    rw [tbNewTokens_eq, if_neg hden]
  have hlim : (1 : ℚ) ≤ (limit : ℚ) := by exact_mod_cast hl
  have hlt : tbNewTokens stored limit w t < (limit : ℚ) := by
    rw [hnt]
    linarith [not_le.1 hden]
  rw [if_pos hlt]
  have hrate : (0 : ℚ) < (limit : ℚ) / (w : ℚ) :=
    div_pos (by exact_mod_cast hl) (by exact_mod_cast hw)
  have hmod := pyMod1_lt_one (tbNewTokens stored limit w t)
  have hq : 0 ≤ (1 - pyMod1 (tbNewTokens stored limit w t)) / ((limit : ℚ) / (w : ℚ)) :=
    div_nonneg (by linarith) hrate.le
  linarith

/-- C3 counterexample: with the token bucket at `limit = 2`,
`window_seconds = 1`, three checks at `t = 0` from a fresh store reach a
denial whose `retry_after` is `0` (the next token arrives in half a
second and `int()` truncates it away), so `retry_after > 0 iff not
allowed` fails on a reachable state. -/
theorem C3_retry_after_counterexample :
    ((TokenBucketStrategy.run (MemStore.init 60 0) "id" 2 1 [0, 0, 0]).1.map
        (fun p => (p.1, p.2.retry_after)))
      = [(true, 0), (true, 0), (false, 0)]
    ∧ ¬ (∀ p ∈ ((TokenBucketStrategy.run (MemStore.init 60 0) "id" 2 1 [0, 0, 0]).1.map
        (fun p => (p.1, p.2.retry_after))), (0 < p.2 ↔ p.1 = false)) := by
  have he : ((TokenBucketStrategy.run (MemStore.init 60 0) "id" 2 1 [0, 0, 0]).1.map
      (fun p => (p.1, p.2.retry_after)))
      = [(true, 0), (true, 0), (false, 0)] := by
    simp [TokenBucketStrategy.run, TokenBucketStrategy.is_allowed, MemStore.get,
      MemStore.maybeCleanup, MemStore.cleanupNow, MemStore.set, MemStore.init, pyInt, pyMod1]
    norm_num
  refine ⟨he, ?_⟩
  rw [he]
  decide

/-- C3 amended: for every check on any of the three strategies with
`limit > 0`, `window_seconds > 0` and a reachable prior store, the
metadata satisfies `0 ≤ remaining ≤ limit` and `0 ≤ retry_after`, and
`allowed = true` implies `retry_after = 0`.  (The converse —
`retry_after > 0` whenever denied — fails for the token bucket, whose
whole-second truncation can report `retry_after = 0` on a denial.) -/
theorem C3_metadata_invariant_amended :
    (∀ (s : MemStore BucketData) (tr : ℚ) (id : String) (limit w : ℤ) (t : ℚ),
      TBReachable s tr → tr ≤ t → 0 < limit → 0 < w →
      0 ≤ (TokenBucketStrategy.is_allowed s id limit w t).2.1.remaining
      ∧ (TokenBucketStrategy.is_allowed s id limit w t).2.1.remaining ≤ limit
      ∧ 0 ≤ (TokenBucketStrategy.is_allowed s id limit w t).2.1.retry_after
      ∧ ((TokenBucketStrategy.is_allowed s id limit w t).1 = true →
          (TokenBucketStrategy.is_allowed s id limit w t).2.1.retry_after = 0))
    ∧ (∀ (s : MemStore (List ℚ)) (id : String) (limit w : ℤ) (t : ℚ),
      0 < limit → 0 < w →
      0 ≤ (SlidingWindowStrategy.is_allowed s id limit w t).2.1.remaining
      ∧ (SlidingWindowStrategy.is_allowed s id limit w t).2.1.remaining ≤ limit
      ∧ 0 ≤ (SlidingWindowStrategy.is_allowed s id limit w t).2.1.retry_after
      ∧ ((SlidingWindowStrategy.is_allowed s id limit w t).1 = true →
          (SlidingWindowStrategy.is_allowed s id limit w t).2.1.retry_after = 0))
    ∧ (∀ (s : MemStore WindowData) (tr : ℚ) (id : String) (limit w : ℤ) (t : ℚ),
      FWReachable s tr → tr ≤ t → 0 < limit → 0 < w →
      0 ≤ (FixedWindowStrategy.is_allowed s id limit w t).2.1.remaining
      ∧ (FixedWindowStrategy.is_allowed s id limit w t).2.1.remaining ≤ limit
      ∧ 0 ≤ (FixedWindowStrategy.is_allowed s id limit w t).2.1.retry_after
      ∧ ((FixedWindowStrategy.is_allowed s id limit w t).1 = true →
          (FixedWindowStrategy.is_allowed s id limit w t).2.1.retry_after = 0)) := by
  refine ⟨?_, ?_, ?_⟩
  · intro s tr id limit w t hre htr hl hw
    have hinv : TBInv s t := tbinv_mono (tb_reachable_inv hre) htr
    have hb : ∀ b, s.read id t = some b → 0 ≤ b.tokens ∧ b.last_refill ≤ t :=
      fun b h => hinv id b h
    have hnn := tbNewTokens_nonneg (s.read id t) limit w t hl hw hb
    refine ⟨?_, ?_, ?_, ?_⟩
    · rw [tb_meta]
      exact pyInt_nonneg hnn
    · rw [tb_meta]
      exact pyInt_le_intCast hnn (tbNewTokens_le _ limit w t)
    · rw [tb_meta]
      simp only
      split
      · exact le_refl 0
      · next hc =>
        have hden : ¬ (1 ≤ tbRefilled (s.read id t) limit w t) :=
          fun h => hc (decide_eq_true h)
        exact pyInt_nonneg (tbResetAt_sub_nonneg _ limit w t hl hw hden)
    · intro hallow
      rw [tb_fst] at hallow
      rw [tb_meta]
      simp only
      rw [if_pos hallow]
  · intro s id limit w t hl hw
    have hlen : (0 : ℤ) ≤ ((swLog2 (s.read id t) limit w t).length : ℤ) :=
      Int.natCast_nonneg _
    refine ⟨?_, ?_, ?_, ?_⟩
    · rw [sw_meta]
      exact le_max_left 0 _
    · rw [sw_meta]
      exact max_le hl.le (by linarith)
    · rw [sw_meta]
      simp only
      split
      · exact le_refl 0
      · exact le_max_left 0 _
    · intro hallow
      rw [sw_fst] at hallow
      rw [sw_meta]
      simp only
      rw [if_pos hallow]
  · intro s tr id limit w t hre htr hl hw
    have hinv : FWInv s t := fwinv_mono (fw_reachable_inv hre) htr
    have hc0 : 0 ≤ fwCount (s.read (fwKey id w t) t) (fwWid w t) :=
      fwCount_nonneg _ _ (fun wd h => hinv (fwKey id w t) wd h)
    have hc1 : 0 ≤ (if fwCount (s.read (fwKey id w t) t) (fwWid w t) < limit then
        fwCount (s.read (fwKey id w t) t) (fwWid w t) + 1
      else fwCount (s.read (fwKey id w t) t) (fwWid w t)) := by
      split <;> linarith
    have hwq : (0 : ℚ) < (w : ℚ) := by exact_mod_cast hw
    have hreset : t < (((fwWid w t + 1) * w : ℤ) : ℚ) := by
      have hfl := Int.lt_floor_add_one (t / (w : ℚ))
      have := (div_lt_iff₀ hwq).1 hfl
      unfold fwWid
      push_cast
      linarith
    refine ⟨?_, ?_, ?_, ?_⟩
    · rw [fw_meta]
      exact le_max_left 0 _
    · rw [fw_meta]
      exact max_le hl.le (by linarith)
    · rw [fw_meta]
      simp only
      split
      · exact le_refl 0
      · exact pyInt_nonneg (by linarith)
    · intro hallow
      rw [fw_fst] at hallow
      rw [fw_meta]
      simp only
      rw [if_pos hallow]

theorem C3_metadata_invariant_amended_witness :
    TBReachable (MemStore.init 60 0) 0 ∧ (0 : ℚ) ≤ 0 ∧ (0 : ℤ) < 5 ∧ (0 : ℤ) < 10
    ∧ (0 ≤ (TokenBucketStrategy.is_allowed (MemStore.init 60 0) "u" 5 10 0).2.1.remaining
      ∧ (TokenBucketStrategy.is_allowed (MemStore.init 60 0) "u" 5 10 0).2.1.remaining ≤ 5
      ∧ 0 ≤ (TokenBucketStrategy.is_allowed (MemStore.init 60 0) "u" 5 10 0).2.1.retry_after
      ∧ ((TokenBucketStrategy.is_allowed (MemStore.init 60 0) "u" 5 10 0).1 = true →
          (TokenBucketStrategy.is_allowed (MemStore.init 60 0) "u" 5 10 0).2.1.retry_after = 0))
    ∧ (0 ≤ (SlidingWindowStrategy.is_allowed (MemStore.init 60 0) "u" 5 10 0).2.1.remaining
      ∧ (SlidingWindowStrategy.is_allowed (MemStore.init 60 0) "u" 5 10 0).2.1.remaining ≤ 5
      ∧ 0 ≤ (SlidingWindowStrategy.is_allowed (MemStore.init 60 0) "u" 5 10 0).2.1.retry_after
      ∧ ((SlidingWindowStrategy.is_allowed (MemStore.init 60 0) "u" 5 10 0).1 = true →
          (SlidingWindowStrategy.is_allowed (MemStore.init 60 0) "u" 5 10 0).2.1.retry_after = 0))
    ∧ FWReachable (MemStore.init 60 0) 0
    ∧ (0 ≤ (FixedWindowStrategy.is_allowed (MemStore.init 60 0) "u" 5 10 0).2.1.remaining
      ∧ (FixedWindowStrategy.is_allowed (MemStore.init 60 0) "u" 5 10 0).2.1.remaining ≤ 5
      ∧ 0 ≤ (FixedWindowStrategy.is_allowed (MemStore.init 60 0) "u" 5 10 0).2.1.retry_after
      ∧ ((FixedWindowStrategy.is_allowed (MemStore.init 60 0) "u" 5 10 0).1 = true →
          (FixedWindowStrategy.is_allowed (MemStore.init 60 0) "u" 5 10 0).2.1.retry_after = 0)) :=
  ⟨TBReachable.init 60 0 0, le_refl 0, by norm_num, by norm_num,
   C3_metadata_invariant_amended.1 (MemStore.init 60 0) 0 "u" 5 10 0
     (TBReachable.init 60 0 0) (le_refl 0) (by norm_num) (by norm_num),
   C3_metadata_invariant_amended.2.1 (MemStore.init 60 0) "u" 5 10 0
     (by norm_num) (by norm_num),
   FWReachable.init 60 0 0,
   C3_metadata_invariant_amended.2.2 (MemStore.init 60 0) 0 "u" 5 10 0
     (FWReachable.init 60 0 0) (le_refl 0) (by norm_num) (by norm_num)⟩

/-! ### C6 : bursts of same-instant checks exhaust the quota exactly -/

theorem tb_same_t_run (n : ℕ) :
    ∀ (s : MemStore BucketData) (c : ℤ) (id : String) (limit w : ℤ) (t : ℚ),
    0 ≤ c → c ≤ limit → 0 < w →
    (s.read id t = some { tokens := (c : ℚ), last_refill := t }
      ∨ (s.read id t = none ∧ c = limit)) →
    (TokenBucketStrategy.run s id limit w (List.replicate n t)).1.map Prod.fst
      = (List.range n).map (fun (k : ℕ) => decide ((k : ℤ) < c)) := by
  induction n with
  | zero => intro s c id limit w t _ _ _ _; rfl
  | succ n ih =>
    intro s c id limit w t hc0 hcl hw hread
    have hcq : ((c : ℚ)) ≤ (limit : ℚ) := by exact_mod_cast hcl
    have hrefill : tbRefilled (s.read id t) limit w t = (c : ℚ) := by
      rcases hread with h | ⟨h, hc⟩
      · rw [h, tbRefilled_some]
        simp only [sub_self, zero_mul, add_zero]
        exact min_eq_left hcq
      · rw [h, tbRefilled_none, hc]
    have hfst : (TokenBucketStrategy.is_allowed s id limit w t).1
        = decide ((0 : ℤ) < c) := by
      rw [tb_fst, hrefill]
      refine decide_eq_decide.2 ?_
      rw [Int.lt_iff_add_one_le, zero_add]
      exact_mod_cast Iff.rfl
    have hnt : tbNewTokens (s.read id t) limit w t
        = ((if 0 < c then c - 1 else c : ℤ) : ℚ) := by
      rw [tbNewTokens_eq, hrefill]
      by_cases hpos : 0 < c
      · rw [if_pos (by exact_mod_cast hpos : (1 : ℚ) ≤ (c : ℚ)), if_pos hpos]
        push_cast
        ring
      · rw [if_neg (by exact_mod_cast hpos : ¬ (1 : ℚ) ≤ (c : ℚ)), if_neg hpos]
    have hread2 : ((TokenBucketStrategy.is_allowed s id limit w t).2.2).read id t
        = some { tokens := ((if 0 < c then c - 1 else c : ℤ) : ℚ), last_refill := t } := by
      have hwq : (0 : ℚ) < (w : ℚ) := by exact_mod_cast hw
      rw [tb_read s id limit w t id t le_rfl, if_pos rfl, hnt,
        if_neg (by push_cast ; linarith : ¬ (t + ((w * 2 : ℤ) : ℚ) < t))]
    have htail := ih ((TokenBucketStrategy.is_allowed s id limit w t).2.2)
      (if 0 < c then c - 1 else c) id limit w t
      (by split <;> omega) (by split <;> omega) hw (Or.inl hread2)
    have h1 : decide ((((0 : ℕ)) : ℤ) < c) = decide (0 < c) :=
      decide_eq_decide.2 (by norm_num)
    have h2 : (List.range n).map ((fun (k : ℕ) => decide ((k : ℤ) < c)) ∘ Nat.succ)
        = (List.range n).map
            (fun (k : ℕ) => decide ((k : ℤ) < if 0 < c then c - 1 else c)) := by
      refine List.map_congr_left (fun a _ => ?_)
      simp only [Function.comp]
      refine decide_eq_decide.2 ?_
      push_cast
      split <;> omega
    show ((TokenBucketStrategy.is_allowed s id limit w t).1,
        (TokenBucketStrategy.is_allowed s id limit w t).2.1).1
        :: ((TokenBucketStrategy.run ((TokenBucketStrategy.is_allowed s id limit w t).2.2)
              id limit w (List.replicate n t)).1.map Prod.fst)
      = _
    rw [htail, hfst, List.range_succ_eq_map, List.map_cons, List.map_map, h1, h2]

theorem fw_same_t_run (n : ℕ) :
    ∀ (s : MemStore WindowData) (c : ℤ) (id : String) (limit w : ℤ) (t : ℚ),
    0 ≤ c → 0 < w →
    (s.read (fwKey id w t) t = some { count := c, window_id := fwWid w t }
      ∨ (s.read (fwKey id w t) t = none ∧ c = 0)) →
    (FixedWindowStrategy.run s id limit w (List.replicate n t)).1.map Prod.fst
      = (List.range n).map (fun (k : ℕ) => decide (c + (k : ℤ) < limit)) := by
  induction n with
  | zero => intro s c id limit w t _ _ _; rfl
  | succ n ih =>
    intro s c id limit w t hc0 hw hread
    have hcount : fwCount (s.read (fwKey id w t) t) (fwWid w t) = c := by
      rcases hread with h | ⟨h, hc⟩
      · rw [h]
        simp [fwCount]
      · rw [h, hc]
        simp [fwCount]
    have hfst : (FixedWindowStrategy.is_allowed s id limit w t).1
        = decide (c + ((0 : ℕ) : ℤ) < limit) := by
      rw [fw_fst, hcount]
      exact decide_eq_decide.2 (by omega)
    have htail :
        (FixedWindowStrategy.run ((FixedWindowStrategy.is_allowed s id limit w t).2.2)
            id limit w (List.replicate n t)).1.map Prod.fst
          = (List.range n).map
              (fun (k : ℕ) => decide ((if c < limit then c + 1 else c) + (k : ℤ) < limit)) := by
      by_cases hal : c < limit
      · have hread2 : ((FixedWindowStrategy.is_allowed s id limit w t).2.2).read
            (fwKey id w t) t = some { count := c + 1, window_id := fwWid w t } := by
          have hwq : (0 : ℚ) < (w : ℚ) := by exact_mod_cast hw
          rw [fw_read s id limit w t (fwKey id w t) t le_rfl, hcount,
            if_pos ⟨hal, rfl⟩,
            if_neg (by push_cast ; linarith : ¬ (t + ((w * 2 : ℤ) : ℚ) < t))]
        have := ih ((FixedWindowStrategy.is_allowed s id limit w t).2.2)
          (c + 1) id limit w t (by omega) hw (Or.inl hread2)
        rw [this, if_pos hal]
      · have hread2 : ((FixedWindowStrategy.is_allowed s id limit w t).2.2).read
            (fwKey id w t) t = s.read (fwKey id w t) t := by
          rw [fw_read s id limit w t (fwKey id w t) t le_rfl, hcount,
            if_neg (fun hcon => hal hcon.1)]
        have := ih ((FixedWindowStrategy.is_allowed s id limit w t).2.2)
          c id limit w t hc0 hw (by rw [hread2] ; exact hread)
        rw [this, if_neg hal]
    have h2 : (List.range n).map ((fun (k : ℕ) => decide (c + (k : ℤ) < limit)) ∘ Nat.succ)
        = (List.range n).map
            (fun (k : ℕ) => decide ((if c < limit then c + 1 else c) + (k : ℤ) < limit)) := by
      refine List.map_congr_left (fun a _ => ?_)
      simp only [Function.comp]
      refine decide_eq_decide.2 ?_
      push_cast
      split <;> omega
    show ((FixedWindowStrategy.is_allowed s id limit w t).1,
        (FixedWindowStrategy.is_allowed s id limit w t).2.1).1
        :: ((FixedWindowStrategy.run ((FixedWindowStrategy.is_allowed s id limit w t).2.2)
              id limit w (List.replicate n t)).1.map Prod.fst)
      = _
    rw [htail, hfst, List.range_succ_eq_map, List.map_cons, List.map_map, h2]

/-- C6: for the token-bucket and fixed-window strategies, for every
identifier with no prior state, `limit > 0`, `window_seconds > 0` and
`N ≤ limit`, making `N + 1` checks at one and the same time `t` admits
the first `N` calls, and when `N = limit` the `(N+1)`-th call is
denied. -/
theorem C6_burst_exhaustion (limit window : ℤ) (N : ℕ) (t : ℚ) (id : String)
    (hl : 0 < limit) (hw : 0 < window) (hN : (N : ℤ) ≤ limit) :
    (∀ (s : MemStore BucketData), s.read id t = none →
      (∀ k : ℕ, k < N →
        ((TokenBucketStrategy.run s id limit window (List.replicate (N + 1) t)).1.map
          Prod.fst).get? k = some true)
      ∧ ((N : ℤ) = limit →
        ((TokenBucketStrategy.run s id limit window (List.replicate (N + 1) t)).1.map
          Prod.fst).get? N = some false))
    ∧ (∀ (s : MemStore WindowData), s.read (fwKey id window t) t = none →
      (∀ k : ℕ, k < N →
        ((FixedWindowStrategy.run s id limit window (List.replicate (N + 1) t)).1.map
          Prod.fst).get? k = some true)
      ∧ ((N : ℤ) = limit →
        ((FixedWindowStrategy.run s id limit window (List.replicate (N + 1) t)).1.map
          Prod.fst).get? N = some false)) := by
  constructor
  · intro s hfresh
    have hrun := tb_same_t_run (N + 1) s limit id limit window t hl.le le_rfl hw
      (Or.inr ⟨hfresh, rfl⟩)
    rw [hrun]
    constructor
    · intro k hk
      rw [List.get?_map, List.get?_range (by omega)]
      show some (decide ((k : ℤ) < limit)) = some true
      rw [decide_eq_true (by omega : (k : ℤ) < limit)]
    · intro hNl
      rw [List.get?_map, List.get?_range (by omega)]
      show some (decide ((N : ℤ) < limit)) = some false
      rw [decide_eq_false (by omega : ¬ ((N : ℤ) < limit))]
  · intro s hfresh
    have hrun := fw_same_t_run (N + 1) s 0 id limit window t le_rfl hw
      (Or.inr ⟨hfresh, rfl⟩)
    rw [hrun]
    constructor
    · intro k hk
      rw [List.get?_map, List.get?_range (by omega)]
      show some (decide ((0 : ℤ) + (k : ℤ) < limit)) = some true
      rw [decide_eq_true (by omega : (0 : ℤ) + (k : ℤ) < limit)]
    · intro hNl
      rw [List.get?_map, List.get?_range (by omega)]
      show some (decide ((0 : ℤ) + (N : ℤ) < limit)) = some false
      rw [decide_eq_false (by omega : ¬ ((0 : ℤ) + (N : ℤ) < limit))]

theorem C6_burst_exhaustion_witness :
    (0 : ℤ) < 3 ∧ (0 : ℤ) < 10 ∧ ((3 : ℕ) : ℤ) ≤ 3
    ∧ (MemStore.init 60 0 : MemStore BucketData).read "u" 0 = none
    ∧ ((TokenBucketStrategy.run (MemStore.init 60 0) "u" 3 10
          (List.replicate 4 0)).1.map Prod.fst).get? 0 = some true
    ∧ ((TokenBucketStrategy.run (MemStore.init 60 0) "u" 3 10
          (List.replicate 4 0)).1.map Prod.fst).get? 3 = some false
    ∧ (MemStore.init 60 0 : MemStore WindowData).read (fwKey "u" 10 0) 0 = none
    ∧ ((FixedWindowStrategy.run (MemStore.init 60 0) "u" 3 10
          (List.replicate 4 0)).1.map Prod.fst).get? 0 = some true
    ∧ ((FixedWindowStrategy.run (MemStore.init 60 0) "u" 3 10
          (List.replicate 4 0)).1.map Prod.fst).get? 3 = some false := by
  have h := C6_burst_exhaustion 3 10 3 0 "u" (by norm_num) (by norm_num) (by norm_num)
  have htb := h.1 (MemStore.init 60 0) rfl
  have hfw := h.2 (MemStore.init 60 0) rfl
  exact ⟨by norm_num, by norm_num, by norm_num, rfl,
    htb.1 0 (by norm_num), htb.2 (by norm_num), rfl,
    hfw.1 0 (by norm_num), hfw.2 (by norm_num)⟩

/-! ### C9 : the middleware's denial response and fail-open path -/

/-- A downstream response used in the concrete middleware scenarios. -/
def mwDownstream : HttpResponse :=
  { status := 200, body_error := none, body_message := none,
    body_retry_after := none, headers := [] }

/-- A limiter (token bucket, `default_limit = 2`, `default_window = 1`)
used in the concrete middleware scenarios. -/
def mwLimiter : RateLimiter :=
  { strat := .token_bucket (MemStore.init 60 0), default_limit := 2, default_window := 1 }

/-- C9 counterexample: three same-instant dispatches through the
middleware (limiter `limit = 2`, `window = 1`); the third is denied with
HTTP 429, yet its response carries no `Retry-After` header, because the
denial's `retry_after` truncates to `0` and the header is added only
when `retry_after > 0`. -/
theorem C9_retry_after_header_missing :
    (RateLimitMiddleware.dispatch [] true
      (RateLimitMiddleware.dispatch [] true
        (RateLimitMiddleware.dispatch [] true mwLimiter "/x" (.ok "u") mwDownstream 0).2.2
        "/x" (.ok "u") mwDownstream 0).2.2
      "/x" (.ok "u") mwDownstream 0).1 = false
    ∧ (RateLimitMiddleware.dispatch [] true
      (RateLimitMiddleware.dispatch [] true
        (RateLimitMiddleware.dispatch [] true mwLimiter "/x" (.ok "u") mwDownstream 0).2.2
        "/x" (.ok "u") mwDownstream 0).2.2
      "/x" (.ok "u") mwDownstream 0).2.1.status = 429
    ∧ (RateLimitMiddleware.dispatch [] true
      (RateLimitMiddleware.dispatch [] true
        (RateLimitMiddleware.dispatch [] true mwLimiter "/x" (.ok "u") mwDownstream 0).2.2
        "/x" (.ok "u") mwDownstream 0).2.2
      "/x" (.ok "u") mwDownstream 0).2.1.hasHeader "Retry-After" = false := by
  simp [RateLimitMiddleware.dispatch, RateLimitMiddleware.rate_limit_response,
    RateLimitMiddleware.add_rate_limit_headers, HttpResponse.hasHeader, mwLimiter,
    mwDownstream, RateLimiter.check, StratState.is_allowed, TokenBucketStrategy.is_allowed,
    MemStore.get, MemStore.maybeCleanup, MemStore.cleanupNow, MemStore.set, MemStore.init,
    pyInt, pyMod1]
  norm_num
  intro a b h
  rcases h with ⟨ha, _⟩ | ⟨ha, _⟩ | ⟨ha, _⟩ <;> subst ha <;> decide

/-- C9 amended: for a non-exempt request whose identifier resolves and
whose check is denied, the middleware returns the structured 429
response built from the check's metadata — JSON body with
`rate_limit_exceeded`, a message and the metadata's `retry_after`, plus
the three `X-RateLimit-*` headers — without invoking the downstream
handler, and it carries a `Retry-After` header exactly when
`retry_after > 0` (not always, as claimed); when identifier resolution
raises, the request is forwarded unmodified and nothing propagates. -/
theorem C9_middleware_contract_amended :
    (∀ (skip : List String) (ah : Bool) (rl : RateLimiter) (path : String)
        (identifier : String) (downstream : HttpResponse) (t : ℚ),
      path ∉ skip → (RateLimiter.check rl identifier none none t).1 = false →
      RateLimitMiddleware.dispatch skip ah rl path (.ok identifier) downstream t
        = (false,
           RateLimitMiddleware.rate_limit_response
             (RateLimiter.check rl identifier none none t).2.1,
           (RateLimiter.check rl identifier none none t).2.2))
    ∧ (∀ (m : Metadata),
        (RateLimitMiddleware.rate_limit_response m).status = 429
        ∧ (RateLimitMiddleware.rate_limit_response m).body_error
            = some "rate_limit_exceeded"
        ∧ (RateLimitMiddleware.rate_limit_response m).body_message
            = some "Too many requests. Please try again later."
        ∧ (RateLimitMiddleware.rate_limit_response m).body_retry_after
            = some m.retry_after
        ∧ (RateLimitMiddleware.rate_limit_response m).hasHeader "X-RateLimit-Limit" = true
        ∧ (RateLimitMiddleware.rate_limit_response m).hasHeader "X-RateLimit-Remaining" = true
        ∧ (RateLimitMiddleware.rate_limit_response m).hasHeader "X-RateLimit-Reset" = true
        ∧ ((RateLimitMiddleware.rate_limit_response m).hasHeader "Retry-After" = true
            ↔ 0 < m.retry_after))
    ∧ (∀ (skip : List String) (ah : Bool) (rl : RateLimiter) (path : String)
        (e : String) (downstream : HttpResponse) (t : ℚ), path ∉ skip →
      RateLimitMiddleware.dispatch skip ah rl path (.error e) downstream t
        = (true, downstream, rl)) := by
  refine ⟨?_, ?_, ?_⟩
  · intro skip ah rl path identifier downstream t hskip hdeny
    simp only [RateLimitMiddleware.dispatch]
    rw [if_neg hskip]
    simp [hdeny]
  · intro m
    unfold RateLimitMiddleware.rate_limit_response RateLimitMiddleware.add_rate_limit_headers
      HttpResponse.hasHeader
    by_cases hr : 0 < m.retry_after
    · simp [hr]
    · simp [hr]
  · intro skip ah rl path e downstream t hskip
    simp only [RateLimitMiddleware.dispatch]
    rw [if_neg hskip]

/-- A limiter whose bucket for `"u"` is empty at time `0`, so its next
check is denied. -/
def mwDeniedLimiter : RateLimiter :=
  { strat := .token_bucket
      ((MemStore.init 60 0).set "u" { tokens := 0, last_refill := 0 } (some 2) 0),
    default_limit := 2, default_window := 1 }

theorem C9_middleware_contract_amended_witness :
    "/x" ∉ ([] : List String)
    ∧ (RateLimiter.check mwDeniedLimiter "u" none none 0).1 = false
    ∧ RateLimitMiddleware.dispatch [] true mwDeniedLimiter "/x" (.ok "u") mwDownstream 0
        = (false,
           RateLimitMiddleware.rate_limit_response
             (RateLimiter.check mwDeniedLimiter "u" none none 0).2.1,
           (RateLimiter.check mwDeniedLimiter "u" none none 0).2.2)
    ∧ RateLimitMiddleware.dispatch [] true mwDeniedLimiter "/x" (.error "boom")
        mwDownstream 0
        = (true, mwDownstream, mwDeniedLimiter) := by
  have hdeny : (RateLimiter.check mwDeniedLimiter "u" none none 0).1 = false := by
    simp [mwDeniedLimiter, RateLimiter.check, StratState.is_allowed,
      TokenBucketStrategy.is_allowed, MemStore.get, MemStore.maybeCleanup,
      MemStore.cleanupNow, MemStore.set, MemStore.init]
    norm_num
  have hskip : "/x" ∉ ([] : List String) := by simp
  exact ⟨hskip, hdeny,
    C9_middleware_contract_amended.1 [] true mwDeniedLimiter "/x" "u" mwDownstream 0
      hskip hdeny,
    C9_middleware_contract_amended.2.2 [] true mwDeniedLimiter "/x" "boom" mwDownstream 0
      hskip⟩

/-! ### C4 : the sliding window caps every trailing interval

The storage-free core of the sliding-window algorithm (`swStepP`), its
run (`swRunLogP`, `swAdmittedP`), and a simulation between it and
`SlidingWindowStrategy.is_allowed` over the real store. -/

/-- One sliding-window decision on a bare log: prune, compare, append. -/
def swStepP (limit w : ℤ) (log : List ℚ) (t : ℚ) : Bool × List ℚ :=
  if ((log.filter (fun ts => decide (t - (w : ℚ) < ts))).length : ℤ) < limit
  then (true, log.filter (fun ts => decide (t - (w : ℚ) < ts)) ++ [t])
  else (false, log)

/-- The bare log after a sequence of sliding-window decisions. -/
def swRunLogP (limit w : ℤ) : List ℚ → List ℚ → List ℚ
  | log, [] => log
  | log, t :: ts => swRunLogP limit w (swStepP limit w log t).2 ts

/-- The timestamps a sequence of sliding-window decisions admits. -/
def swAdmittedP (limit w : ℤ) : List ℚ → List ℚ → List ℚ
  | _, [] => []
  | log, t :: ts =>
    (if (swStepP limit w log t).1 then [t] else [])
      ++ swAdmittedP limit w (swStepP limit w log t).2 ts

/-- The timestamps the real strategy admits along a sequence of checks. -/
def SlidingWindowStrategy.admittedTimes (storage : MemStore (List ℚ))
    (identifier : String) (limit window_seconds : ℤ) : List ℚ → List ℚ
  | [] => []
  | t :: ts =>
    (if (SlidingWindowStrategy.is_allowed storage identifier limit window_seconds t).1
     then [t] else [])
      ++ SlidingWindowStrategy.admittedTimes
          (SlidingWindowStrategy.is_allowed storage identifier limit window_seconds t).2.2
          identifier limit window_seconds ts

theorem swStepP_fst (limit w : ℤ) (log : List ℚ) (t : ℚ) :
    (swStepP limit w log t).1
      = decide (((log.filter (fun ts => decide (t - (w : ℚ) < ts))).length : ℤ) < limit) := by
  unfold swStepP
  split
  · next h => exact (decide_eq_true h).symm
  · next h => exact (decide_eq_false h).symm

theorem swStepP_snd (limit w : ℤ) (log : List ℚ) (t : ℚ) :
    (swStepP limit w log t).2
      = if ((log.filter (fun ts => decide (t - (w : ℚ) < ts))).length : ℤ) < limit
        then log.filter (fun ts => decide (t - (w : ℚ) < ts)) ++ [t]
        else log := by
  unfold swStepP
  split
  · rfl
  · rfl

theorem swAdmittedP_cons (limit w : ℤ) (log : List ℚ) (t : ℚ) (ts : List ℚ) :
    swAdmittedP limit w log (t :: ts)
      = (if (swStepP limit w log t).1 then [t] else [])
        ++ swAdmittedP limit w (swStepP limit w log t).2 ts := rfl

theorem swRunLogP_cons (limit w : ℤ) (log : List ℚ) (t : ℚ) (ts : List ℚ) :
    swRunLogP limit w log (t :: ts)
      = swRunLogP limit w (swStepP limit w log t).2 ts := rfl

theorem swAdmittedP_subset (limit w : ℤ) :
    ∀ (ts log : List ℚ) (x : ℚ), x ∈ swAdmittedP limit w log ts → x ∈ ts := by
  intro ts
  induction ts with
  | nil => intro log x hx; cases hx
  | cons u rest ih =>
    intro log x hx
    rw [swAdmittedP_cons] at hx
    rcases List.mem_append.1 hx with h | h
    · have hxu : x = u := by
        revert h
        split
        · intro h
          simpa using h
        · intro h
          exact absurd h (List.not_mem_nil x)
      rw [hxu]
      exact List.mem_cons_self u rest
    · exact List.mem_cons_of_mem u (ih _ x h)

theorem swAdmittedP_append (limit w : ℤ) :
    ∀ (ts1 ts2 log : List ℚ),
    swAdmittedP limit w log (ts1 ++ ts2)
      = swAdmittedP limit w log ts1
        ++ swAdmittedP limit w (swRunLogP limit w log ts1) ts2 := by
  intro ts1
  induction ts1 with
  | nil => intro ts2 log; rfl
  | cons u rest ih =>
    intro ts2 log
    rw [List.cons_append, swAdmittedP_cons, swAdmittedP_cons, ih, swRunLogP_cons,
      List.append_assoc]

/-- The anchored counting lemma: along any decisions at times at most
`t`, the number of admissions that land inside the trailing window
`(t - w, t]`, plus the in-window content the bare log starts with, never
exceeds the limit. -/
theorem sw_anchored (limit w : ℤ) (t : ℚ) :
    ∀ (ts log : List ℚ), (∀ u ∈ ts, u ≤ t) →
    (swAdmittedP limit w log ts).countP (fun x => decide (t - (w : ℚ) < x))
      + min ((log.filter (fun x => decide (t - (w : ℚ) < x))).length) limit.toNat
      ≤ limit.toNat := by
  intro ts
  induction ts with
  | nil =>
    intro log hu
    show ([] : List ℚ).countP _ + _ ≤ _
    rw [List.countP_nil]
    omega
  | cons u rest ih =>
    intro log hu
    have hut : u ≤ t := hu u (List.mem_cons_self u rest)
    have hfilter : log.filter (fun x => decide (t - (w : ℚ) < x))
        = (log.filter (fun x => decide (u - (w : ℚ) < x))).filter
            (fun x => decide (t - (w : ℚ) < x)) := by
      rw [List.filter_filter]
      refine (List.filter_congr ?_).symm
      intro x _
      by_cases hx : t - (w : ℚ) < x
      · have : u - (w : ℚ) < x := by linarith
        simp [hx, this]
      · simp [hx]
    rw [swAdmittedP_cons, List.countP_append]
    by_cases hstep : ((log.filter (fun ts => decide (u - (w : ℚ) < ts))).length : ℤ) < limit
    · have hfst : (swStepP limit w log u).1 = true := by
        rw [swStepP_fst]
        exact decide_eq_true hstep
      have hsnd : (swStepP limit w log u).2
          = log.filter (fun ts => decide (u - (w : ℚ) < ts)) ++ [u] := by
        rw [swStepP_snd, if_pos hstep]
      have ihr := ih (swStepP limit w log u).2 (fun x hx => hu x (List.mem_cons_of_mem u hx))
      rw [hsnd] at ihr
      rw [List.filter_append] at ihr
      rw [List.length_append] at ihr
      have hL : (log.filter (fun x => decide (t - (w : ℚ) < x))).length
          ≤ (log.filter (fun ts => decide (u - (w : ℚ) < ts))).length := by
        rw [hfilter]
        exact List.length_filter_le _ _
      have hLlt : (log.filter (fun x => decide (t - (w : ℚ) < x))).length < limit.toNat := by
        omega
      have hone : (([u].filter (fun x => decide (t - (w : ℚ) < x))).length)
          = (if t - (w : ℚ) < u then 1 else 0) := by
        by_cases hin : t - (w : ℚ) < u
        · simp [hin]
        · simp [hin]
      have hcount1 : ([u].countP (fun x => decide (t - (w : ℚ) < x)))
          = (if t - (w : ℚ) < u then 1 else 0) := by
        by_cases hin : t - (w : ℚ) < u
        · simp [hin]
        · simp [hin]
      rw [← hfilter, hone] at ihr
      rw [hfst, hsnd]
      simp only [eq_self_iff_true, if_true]
      rw [hcount1]
      by_cases hin : t - (w : ℚ) < u
      · rw [if_pos hin] at ihr ⊢
        omega
      · rw [if_neg hin] at ihr ⊢
        omega
    · have hfst : (swStepP limit w log u).1 = false := by
        rw [swStepP_fst]
        exact decide_eq_false hstep
      have hsnd : (swStepP limit w log u).2 = log := by
        rw [swStepP_snd, if_neg hstep]
      have ihr := ih (swStepP limit w log u).2 (fun x hx => hu x (List.mem_cons_of_mem u hx))
      rw [hsnd] at ihr
      rw [hfst, hsnd]
      simp only [Bool.false_eq_true, if_false, List.countP_nil]
      omega

theorem admittedTimes_cons (s : MemStore (List ℚ)) (identifier : String)
    (limit w : ℤ) (t : ℚ) (ts : List ℚ) :
    SlidingWindowStrategy.admittedTimes s identifier limit w (t :: ts)
      = (if (SlidingWindowStrategy.is_allowed s identifier limit w t).1 then [t] else [])
        ++ SlidingWindowStrategy.admittedTimes
            (SlidingWindowStrategy.is_allowed s identifier limit w t).2.2
            identifier limit w ts := rfl

/-- The simulation: over a nondecreasing call sequence, the real
strategy running on the TTL store admits exactly the timestamps the
bare-log algorithm admits, provided store and bare log agree on every
future trailing window. -/
theorem sw_sim (identifier : String) (limit w : ℤ) (hw : 0 < w) :
    ∀ (ts : List ℚ) (s : MemStore (List ℚ)) (plog : List ℚ) (tlo : ℚ),
    List.Sorted (· ≤ ·) (tlo :: ts) →
    (∀ t', tlo ≤ t' →
      ((s.read identifier t').getD []).filter (fun x => decide (t' - (w : ℚ) < x))
        = plog.filter (fun x => decide (t' - (w : ℚ) < x))) →
    (∀ x ∈ plog, x ≤ tlo) →
    SlidingWindowStrategy.admittedTimes s identifier limit w ts
      = swAdmittedP limit w plog ts := by
  intro ts
  induction ts with
  | nil => intro s plog tlo _ _ _; rfl
  | cons u rest ih =>
    intro s plog tlo hsort hI1 hI2
    have htlo_u : tlo ≤ u := (List.sorted_cons.1 hsort).1 u (List.mem_cons_self u rest)
    have hsort' : List.Sorted (· ≤ ·) (u :: rest) := (List.sorted_cons.1 hsort).2
    have hEq := hI1 u htlo_u
    have hpr : swPruned (s.read identifier u) w u
        = plog.filter (fun x => decide (u - (w : ℚ) < x)) := by
      unfold swPruned
      exact hEq
    rw [admittedTimes_cons, swAdmittedP_cons]
    by_cases hal : ((plog.filter (fun x => decide (u - (w : ℚ) < x))).length : ℤ) < limit
    · have hresl : (SlidingWindowStrategy.is_allowed s identifier limit w u).1 = true := by
        rw [sw_fst, hpr]
        exact decide_eq_true hal
      have hpfst : (swStepP limit w plog u).1 = true := by
        rw [swStepP_fst]
        exact decide_eq_true hal
      have hpurestep : (swStepP limit w plog u).2
          = plog.filter (fun x => decide (u - (w : ℚ) < x)) ++ [u] := by
        rw [swStepP_snd, if_pos hal]
      have hI2' : ∀ x ∈ plog.filter (fun x => decide (u - (w : ℚ) < x)) ++ [u], x ≤ u := by
        intro x hx
        rcases List.mem_append.1 hx with hx | hx
        · exact le_trans (hI2 x (List.mem_of_mem_filter hx)) htlo_u
        · have : x = u := by simpa using hx
          rw [this]
      have hI1' : ∀ t', u ≤ t' →
          ((((SlidingWindowStrategy.is_allowed s identifier limit w u).2.2).read
              identifier t').getD []).filter (fun x => decide (t' - (w : ℚ) < x))
            = (plog.filter (fun x => decide (u - (w : ℚ) < x)) ++ [u]).filter
                (fun x => decide (t' - (w : ℚ) < x)) := by
        intro t' ht'
        rw [sw_read s identifier limit w u identifier t' ht',
          if_pos ⟨by rw [hpr] ; exact hal, rfl⟩]
        by_cases hex : u + ((w * 2 : ℤ) : ℚ) < t'
        · rw [if_pos hex]
          simp only [Option.getD_none, List.filter_nil]
          refine Eq.symm (List.filter_eq_nil.2 ?_)
          intro x hx
          have hxu : x ≤ u := hI2' x hx
          have hwq : (0 : ℚ) < (w : ℚ) := by exact_mod_cast hw
          have : ¬ (t' - (w : ℚ) < x) := by push_cast at hex ; linarith
          simpa using this
        · rw [if_neg hex]
          simp only [Option.getD_some]
          rw [hpr]
      have ihre := ih ((SlidingWindowStrategy.is_allowed s identifier limit w u).2.2)
        (plog.filter (fun x => decide (u - (w : ℚ) < x)) ++ [u]) u hsort' hI1' hI2'
      rw [hresl, hpfst, hpurestep, ihre]
    · have hresl : (SlidingWindowStrategy.is_allowed s identifier limit w u).1 = false := by
        rw [sw_fst, hpr]
        exact decide_eq_false hal
      have hpfst : (swStepP limit w plog u).1 = false := by
        rw [swStepP_fst]
        exact decide_eq_false hal
      have hpurestep : (swStepP limit w plog u).2 = plog := by
        rw [swStepP_snd, if_neg hal]
      have hI1' : ∀ t', u ≤ t' →
          ((((SlidingWindowStrategy.is_allowed s identifier limit w u).2.2).read
              identifier t').getD []).filter (fun x => decide (t' - (w : ℚ) < x))
            = plog.filter (fun x => decide (t' - (w : ℚ) < x)) := by
        intro t' ht'
        rw [sw_read s identifier limit w u identifier t' ht',
          if_neg (fun hc => hal (by rw [← hpr] ; exact hc.1))]
        exact hI1 t' (le_trans htlo_u ht')
      have hI2' : ∀ x ∈ plog, x ≤ u := fun x hx => le_trans (hI2 x hx) htlo_u
      have ihre := ih ((SlidingWindowStrategy.is_allowed s identifier limit w u).2.2)
        plog u hsort' hI1' hI2'
      rw [hresl, hpfst, hpurestep, ihre]

theorem filter_all_of_length_eq {α : Type} (p : α → Bool) :
    ∀ (l : List α), (l.filter p).length = l.length → ∀ x ∈ l, p x = true := by
  intro l
  induction l with
  | nil => intro _ x hx; cases hx
  | cons a l ih =>
    intro h x hx
    by_cases hpa : p a = true
    · rw [List.filter_cons_of_pos hpa] at h
      simp only [List.length_cons] at h
      rcases List.mem_cons.1 hx with hx | hx
      · rw [hx]; exact hpa
      · exact ih (by omega) x hx
    · rw [List.filter_cons_of_neg (by simpa using hpa)] at h
      have hle := List.length_filter_le p l
      simp only [List.length_cons] at h
      omega

theorem sw_run_snd_cons (s : MemStore (List ℚ)) (identifier : String)
    (limit w : ℤ) (t : ℚ) (ts : List ℚ) :
    (SlidingWindowStrategy.run s identifier limit w (t :: ts)).2
      = (SlidingWindowStrategy.run
          (SlidingWindowStrategy.is_allowed s identifier limit w t).2.2
          identifier limit w ts).2 := rfl

/-- After running the real strategy over a nondecreasing call sequence,
the stored log for the identifier (as visible at the time of the last
call) contains only admitted timestamps lying inside the current
trailing window, and at most `limit` of them. -/
theorem sw_store_after_run (identifier : String) (limit w : ℤ) (hw : 0 < w) :
    ∀ (ts : List ℚ) (s : MemStore (List ℚ)) (tlo : ℚ) (acc : List ℚ),
    List.Sorted (· ≤ ·) (tlo :: ts) →
    (∀ x ∈ (s.read identifier tlo).getD [], x ∈ acc ∧ tlo - (w : ℚ) < x ∧ x ≤ tlo) →
    ((s.read identifier tlo).getD []).length ≤ limit.toNat →
    (∀ x ∈ (((SlidingWindowStrategy.run s identifier limit w ts).2).read identifier
          (ts.getLastD tlo)).getD [],
        x ∈ acc ++ SlidingWindowStrategy.admittedTimes s identifier limit w ts
        ∧ ts.getLastD tlo - (w : ℚ) < x ∧ x ≤ ts.getLastD tlo)
    ∧ ((((SlidingWindowStrategy.run s identifier limit w ts).2).read identifier
          (ts.getLastD tlo)).getD []).length ≤ limit.toNat := by
  intro ts
  induction ts with
  | nil =>
    intro s tlo acc _ hmem hlen
    refine ⟨fun x hx => ?_, hlen⟩
    obtain ⟨h1, h2, h3⟩ := hmem x hx
    exact ⟨List.mem_append.2 (Or.inl h1), h2, h3⟩
  | cons u rest ih =>
    intro s tlo acc hsort hmem hlen
    have htlo_u : tlo ≤ u := (List.sorted_cons.1 hsort).1 u (List.mem_cons_self u rest)
    have hsort' : List.Sorted (· ≤ ·) (u :: rest) := (List.sorted_cons.1 hsort).2
    have hwq : (0 : ℚ) < (w : ℚ) := by exact_mod_cast hw
    have hmemEu : ∀ x ∈ (s.read identifier u).getD [], x ∈ acc ∧ x ≤ u := by
      intro x hx
      rcases MemStore.read_mono s identifier htlo_u with hm | hm
      · rw [hm] at hx
        exact ⟨(hmem x hx).1, le_trans (hmem x hx).2.2 htlo_u⟩
      · rw [hm] at hx
        cases hx
    have hlenEu : ((s.read identifier u).getD []).length ≤ limit.toNat := by
      rcases MemStore.read_mono s identifier htlo_u with hm | hm
      · rw [hm]; exact hlen
      · rw [hm]; exact Nat.zero_le _
    rw [sw_run_snd_cons, admittedTimes_cons, List.getLastD_cons]
    by_cases hal : ((swPruned (s.read identifier u) w u).length : ℤ) < limit
    · have hresl : (SlidingWindowStrategy.is_allowed s identifier limit w u).1 = true := by
        rw [sw_fst]
        exact decide_eq_true hal
      have hread' : ((SlidingWindowStrategy.is_allowed s identifier limit w u).2.2).read
          identifier u = some (swPruned (s.read identifier u) w u ++ [u]) := by
        rw [sw_read s identifier limit w u identifier u le_rfl, if_pos ⟨hal, rfl⟩,
          if_neg (by push_cast ; linarith : ¬ (u + ((w * 2 : ℤ) : ℚ) < u))]
      have hmem' : ∀ x ∈ (((SlidingWindowStrategy.is_allowed s identifier limit w u).2.2).read
            identifier u).getD [],
          x ∈ acc ++ [u] ∧ u - (w : ℚ) < x ∧ x ≤ u := by
        rw [hread']
        simp only [Option.getD_some]
        intro x hx
        rcases List.mem_append.1 hx with hx | hx
        · have hxE : x ∈ (s.read identifier u).getD [] := List.mem_of_mem_filter hx

          refine ⟨List.mem_append.2 (Or.inl (hmemEu x hxE).1), ?_, (hmemEu x hxE).2⟩
          have := List.of_mem_filter hx
          simpa using this
        · have hxu : x = u := by simpa using hx
          rw [hxu]
          exact ⟨List.mem_append.2 (Or.inr (List.mem_singleton_self u)), by linarith, le_rfl⟩
      have hlen' : ((((SlidingWindowStrategy.is_allowed s identifier limit w u).2.2).read
            identifier u).getD []).length ≤ limit.toNat := by
        rw [hread']
        simp only [Option.getD_some, List.length_append, List.length_singleton]
        omega
      have ihres := ih ((SlidingWindowStrategy.is_allowed s identifier limit w u).2.2)
        u (acc ++ [u]) hsort' hmem' hlen'
      refine ⟨fun x hx => ?_, ihres.2⟩
      obtain ⟨h1, h2, h3⟩ := ihres.1 x hx
      refine ⟨?_, h2, h3⟩
      rw [hresl]
      simp only [if_true]
      rw [← List.append_assoc]
      exact h1
    · have hresl : (SlidingWindowStrategy.is_allowed s identifier limit w u).1 = false := by
        rw [sw_fst]
        exact decide_eq_false hal
      have hreadeq : ∀ t', u ≤ t' →
          ((SlidingWindowStrategy.is_allowed s identifier limit w u).2.2).read identifier t'
            = s.read identifier t' := by
        intro t' ht'
        rw [sw_read s identifier limit w u identifier t' ht',
          if_neg (fun hc => hal hc.1)]
      have hqall : ∀ x ∈ (s.read identifier u).getD [],
          (fun ts => decide (u - (w : ℚ) < ts)) x = true := by
        have hlimle : limit ≤ ((swPruned (s.read identifier u) w u).length : ℤ) :=
          not_lt.1 hal
        have hfle : (swPruned (s.read identifier u) w u).length
            ≤ ((s.read identifier u).getD []).length := List.length_filter_le _ _
        refine filter_all_of_length_eq _ _ ?_
        show ((((s.read identifier u).getD []).filter
          (fun ts => decide (u - (w : ℚ) < ts))).length) = _
        have : (swPruned (s.read identifier u) w u).length
            = (((s.read identifier u).getD []).filter
                (fun ts => decide (u - (w : ℚ) < ts))).length := rfl
        omega
      have hmem'' : ∀ x ∈ (((SlidingWindowStrategy.is_allowed s identifier limit w u).2.2).read
            identifier u).getD [],
          x ∈ acc ∧ u - (w : ℚ) < x ∧ x ≤ u := by
        rw [hreadeq u le_rfl]
        intro x hx
        refine ⟨(hmemEu x hx).1, ?_, (hmemEu x hx).2⟩
        have := hqall x hx
        simpa using this
      have hlen'' : ((((SlidingWindowStrategy.is_allowed s identifier limit w u).2.2).read
            identifier u).getD []).length ≤ limit.toNat := by
        rw [hreadeq u le_rfl]
        exact hlenEu
      have ihres := ih ((SlidingWindowStrategy.is_allowed s identifier limit w u).2.2)
        u acc hsort' hmem'' hlen''
      refine ⟨fun x hx => ?_, ihres.2⟩
      obtain ⟨h1, h2, h3⟩ := ihres.1 x hx
      refine ⟨?_, h2, h3⟩
      rw [hresl]
      simp only [Bool.false_eq_true, if_false, List.nil_append]
      exact h1

theorem sorted_dropWhile_gt (t : ℚ) :
    ∀ (ts : List ℚ), List.Sorted (· ≤ ·) ts →
    ∀ x ∈ ts.dropWhile (fun u => decide (u ≤ t)), t < x := by
  intro ts
  induction ts with
  | nil => intro _ x hx; cases hx
  | cons a l ih =>
    intro hs x hx
    rw [List.dropWhile_cons] at hx
    by_cases ha : a ≤ t
    · rw [if_pos (by simpa using ha)] at hx
      exact ih (List.sorted_cons.1 hs).2 x hx
    · rw [if_neg (by simpa using ha)] at hx
      rcases List.mem_cons.1 hx with hx | hx
      · rw [hx]; exact not_le.1 ha
      · exact lt_of_lt_of_le (not_le.1 ha) ((List.sorted_cons.1 hs).1 x hx)

/-- C4: starting from a fresh store, along any sequence of
sliding-window checks at nondecreasing times with fixed `limit > 0` and
`window_seconds > 0`: (1) for every time `t`, at most `limit` of the
admitted timestamps lie in the trailing interval `(t - window, t]`; and
(2) after each check (at the time `u` of the last check so far), the
stored log holds only admitted timestamps inside the current trailing
window `(u - window, u]`. -/
theorem C4_sliding_window_cap (identifier : String) (limit window : ℤ) (ci t0 : ℚ)
    (ts : List ℚ) (hl : 0 < limit) (hw : 0 < window)
    (hts : List.Sorted (· ≤ ·) ts) :
    (∀ t : ℚ,
      ((SlidingWindowStrategy.admittedTimes (MemStore.init ci t0) identifier limit window
          ts).countP (fun x => decide (t - (window : ℚ) < x) && decide (x ≤ t)) : ℤ)
        ≤ limit)
    ∧ (∀ (pre post : List ℚ) (u : ℚ), ts = pre ++ post → pre.getLast? = some u →
      ∀ x ∈ (((SlidingWindowStrategy.run (MemStore.init ci t0) identifier limit window
            pre).2).read identifier u).getD [],
        x ∈ SlidingWindowStrategy.admittedTimes (MemStore.init ci t0) identifier limit
              window pre
        ∧ u - (window : ℚ) < x ∧ x ≤ u) := by
  constructor
  · intro t
    have hsim : SlidingWindowStrategy.admittedTimes (MemStore.init ci t0) identifier
        limit window ts = swAdmittedP limit window [] ts := by
      cases hts0 : ts with
      | nil => rfl
      | cons a l =>
        refine sw_sim identifier limit window hw (a :: l) (MemStore.init ci t0) [] a
          ?_ (fun t' _ => by rw [MemStore.read_init] ; rfl) (fun x hx => absurd hx (List.not_mem_nil x))
        rw [hts0] at hts
        refine List.sorted_cons.2 ⟨?_, hts⟩
        intro b hb
        rcases List.mem_cons.1 hb with hb | hb
        · rw [hb]
        · exact (List.sorted_cons.1 hts).1 b hb
    rw [hsim]
    have hsplit := List.takeWhile_append_dropWhile (p := fun u => decide (u ≤ t)) (l := ts)
    rw [← hsplit, swAdmittedP_append, List.countP_append]
    have hpost : (swAdmittedP limit window
        (swRunLogP limit window [] (ts.takeWhile (fun u => decide (u ≤ t))))
        (ts.dropWhile (fun u => decide (u ≤ t)))).countP
          (fun x => decide (t - (window : ℚ) < x) && decide (x ≤ t)) = 0 := by
      rw [List.countP_eq_zero]
      intro x hx
      have hxts : x ∈ ts.dropWhile (fun u => decide (u ≤ t)) :=
        swAdmittedP_subset limit window _ _ x hx
      have hgt : t < x := sorted_dropWhile_gt t ts hts x hxts
      simp [not_le.2 hgt]
    have hpre : (swAdmittedP limit window [] (ts.takeWhile (fun u => decide (u ≤ t)))).countP
        (fun x => decide (t - (window : ℚ) < x) && decide (x ≤ t)) ≤ limit.toNat := by
      have hanch := sw_anchored limit window t (ts.takeWhile (fun u => decide (u ≤ t))) []
        (fun u hu => by simpa using List.mem_takeWhile_imp hu)
      simp only [List.filter_nil, List.length_nil, Nat.min_eq_left (Nat.zero_le _)] at hanch
      have hmono : (swAdmittedP limit window []
            (ts.takeWhile (fun u => decide (u ≤ t)))).countP
          (fun x => decide (t - (window : ℚ) < x) && decide (x ≤ t))
          ≤ (swAdmittedP limit window [] (ts.takeWhile (fun u => decide (u ≤ t)))).countP
            (fun x => decide (t - (window : ℚ) < x)) := by
        refine List.countP_mono_left ?_
        intro x _ hx
        simp only [Bool.and_eq_true] at hx
        exact hx.1
      omega
    have htotal := Nat.add_le_add hpre (Nat.le_of_eq hpost.symm)
    omega
  · intro pre post u hsplit hlast x hx
    have hpre_ne : pre ≠ [] := by
      intro h
      rw [h] at hlast
      cases hlast
    obtain ⟨a, l, hal⟩ := List.exists_cons_of_ne_nil hpre_ne
    have hsorted_pre : List.Sorted (· ≤ ·) pre := by
      rw [hsplit] at hts
      exact ((List.pairwise_append).1 hts).1
    have hgetD : pre.getLastD a = u := by
      rw [List.getLastD_eq_getLast?, hlast]
      rfl
    have hrun := sw_store_after_run identifier limit window hw pre (MemStore.init ci t0)
      a []
      (by
        rw [hal] at hsorted_pre ⊢
        refine List.sorted_cons.2 ⟨?_, hsorted_pre⟩
        intro b hb
        rcases List.mem_cons.1 hb with hb | hb
        · rw [hb]
        · exact (List.sorted_cons.1 hsorted_pre).1 b hb)
      (by rw [MemStore.read_init] ; intro y hy ; cases hy)
      (by rw [MemStore.read_init] ; exact Nat.zero_le _)
    have hlastD : pre.getLastD a = u := hgetD
    rw [hlastD] at hrun
    obtain ⟨h1, h2, h3⟩ := hrun.1 x hx
    rw [List.nil_append] at h1
    exact ⟨h1, h2, h3⟩

theorem C4_sliding_window_cap_witness :
    (0 : ℤ) < 3 ∧ (0 : ℤ) < 10
    ∧ List.Sorted (· ≤ ·) ([0, 1, 2, 3, 11] : List ℚ)
    ∧ ((SlidingWindowStrategy.admittedTimes (MemStore.init 60 0) "u" 3 10
          [0, 1, 2, 3, 11]).countP
            (fun x => decide ((11 : ℚ) - (10 : ℚ) < x) && decide (x ≤ (11 : ℚ))) : ℤ) ≤ 3 :=
  ⟨by norm_num, by norm_num, by decide,
   (C4_sliding_window_cap "u" 3 10 60 0 [0, 1, 2, 3, 11] (by norm_num) (by norm_num)
     (by decide)).1 11⟩

end RateLimit
